import Mathlib

/-!
# kubeaudit: override resolution, resource normalisation, capability sets, dispatch

A shallow embedding of `cmd/util.go` and `cmd/cap_set.go`.  Go values are modelled as
follows.

* `map[string]string` is an association list read with `Labels.get`; reading a
  key that is not present (or reading a nil map) gives the empty string.
* `map[Capability]bool` is an association list with distinct keys (`AList`).
* A Go pointer that the code compares with `nil` is an `Option`.
* A Go `error` is an `Option String` (`none` is `nil`), holding the message.
* A run-time panic (nil pointer dereference) is the `Except.error` outcome.
* The process-wide `rootConfig`, the file behind `rootConfig.auditConfig` and
  the helper `mapOverridesToStructFields` (declared outside `cmd/util.go`) are
  explicit parameters, gathered in `World`.
* Goroutines and the channel of `getResults` are a transition system, run under a
  schedule that picks the goroutine to move at each step.
-/

namespace Kubeaudit

/-! ## Data model -/

/-- Label mapping of an object, Go type `map[string]string`. -/
abbrev Labels := List (String × String)

/-- Map read `m[k]`: the stored value, or the zero value `""` when `k` is absent. -/
def Labels.get (m : Labels) (k : String) : String :=
  match m.lookup k with
  | some v => v
  | none => ""

/-- Container security context: only the field read by `cmd/util.go`. -/
structure SecurityContext where
  RunAsNonRoot : Option Bool
  deriving DecidableEq, Repr

/-- Pod security context: only the field read by `cmd/util.go`. -/
structure PodSecurityContext where
  RunAsNonRoot : Option Bool
  deriving DecidableEq, Repr

/-- Container type `ContainerV1`: the fields read by `cmd/util.go`. -/
structure ContainerV1 where
  Name : String
  SecurityContext : Option SecurityContext
  deriving DecidableEq, Repr

/-- Pod specification `PodSpecV1`: the fields read by `cmd/util.go`. -/
structure PodSpecV1 where
  ServiceAccountName : String
  DeprecatedServiceAccount : String
  AutomountServiceAccountToken : Option Bool
  SecurityContext : Option PodSecurityContext
  deriving DecidableEq, Repr

/-- Audit result: the fields written or read by `cmd/util.go`.  `Token` is a `*bool`. -/
structure Result where
  KubeType : String
  Name : String
  Namespace : String
  Labels : Labels
  SA : String
  DSA : String
  Token : Option Bool
  deriving DecidableEq, Repr

/-- Override section of the audit configuration, read by reflection: field name and
string value of every field of the struct. -/
abbrev KubeauditConfigOverrides := List (String × String)

/-- Policy section of the audit configuration; `Overrides` is a pointer. -/
structure KubeauditConfigSpec where
  Overrides : Option KubeauditConfigOverrides
  deriving DecidableEq, Repr

/-- Audit configuration; `Spec` is a pointer. -/
structure KubeauditConfig where
  Spec : Option KubeauditConfigSpec
  deriving DecidableEq, Repr

/-- Process-wide configuration `rootConfig`: the field read by the override resolver. -/
structure RootConfig where
  auditConfig : String

/-- Everything the override resolver reads besides its arguments. -/
structure World where
  /-- Global variable `rootConfig`. -/
  rootConfig : RootConfig
  /-- What `ioutil.ReadFile` followed by `yaml.Unmarshal` leaves in a fresh
  `&KubeauditConfig` for a given path (read errors are ignored by the code). -/
  loadConfig : String → KubeauditConfig
  /-- Helper `mapOverridesToStructFields`, declared outside `cmd/util.go`. -/
  mapOverridesToStructFields : String → String

/-! ## Override resolution -/

/-- Reflection read `reflect.Indirect(r).FieldByName(name).String()` on the overrides
struct: the field's string, or `"<invalid Value>"` (the `String` of the zero
`reflect.Value`) when the struct has no field of that name. -/
def fieldByNameString (o : KubeauditConfigOverrides) (name : String) : String :=
  match o.lookup name with
  | some v => v
  | none => "<invalid Value>"

/-- Source function `getPodOverrideLabelReason`. -/
def getPodOverrideLabelReason (w : World) (result : Result) (overrideLabel : String) :
    Bool × String :=
  let podOverrideLabel := "audit.kubernetes.io/pod/" ++ overrideLabel
  let reason := result.Labels.get podOverrideLabel
  if reason ≠ "" then (true, reason)
  else if w.rootConfig.auditConfig ≠ "" then
    let kubeauditConfig := w.loadConfig w.rootConfig.auditConfig
    let tempLabel := w.mapOverridesToStructFields overrideLabel
    match kubeauditConfig.Spec with
    | none => (false, "")
    | some spec =>
      match spec.Overrides with
      | none => (false, "")
      | some overrides =>
        if fieldByNameString overrides tempLabel = "allow" then
          (true, "Allowed " ++ overrideLabel ++ " in kubeauditConfig")
        else (false, "")
  else (false, "")

/-- Source function `getContainerOverrideLabelReason`. -/
def getContainerOverrideLabelReason (w : World) (result : Result) (container : ContainerV1)
    (overrideLabel : String) : Bool × String :=
  let containerOverrideLabel :=
    "container.audit.kubernetes.io/" ++ container.Name ++ "/" ++ overrideLabel
  let reason := result.Labels.get containerOverrideLabel
  if reason ≠ "" then (true, reason)
  else getPodOverrideLabelReason w result overrideLabel

/-- Library call `strings.Replace(s, "_", "-", -1)`: every underscore becomes a hyphen. -/
def replaceUnderscores (s : String) : String :=
  String.mk (s.data.map (fun c => if c = '_' then '-' else c))

/-- Source function `isDefinedCapOverrideLabel`. -/
def isDefinedCapOverrideLabel (result : Result) (container : ContainerV1) (capName : String) :
    Bool :=
  let capNameKey := replaceUnderscores capName
  let containerKeyString :=
    "container.audit.kubernetes.io/" ++ container.Name ++ "/allow-capability-" ++ capNameKey
  if result.Labels.get containerKeyString ≠ "" then true
  else
    let podKeyString := "audit.kubernetes.io/pod/allow-capability-" ++ capNameKey
    decide (result.Labels.get podKeyString ≠ "")

/-- Source function `shouldAuditCSC`. -/
def shouldAuditCSC (podSpec : PodSpecV1) (container : ContainerV1) : Bool :=
  let containerSets : Bool :=
    match container.SecurityContext with
    | none => false
    | some sc => sc.RunAsNonRoot.isSome
  let podUnset : Bool :=
    match podSpec.SecurityContext with
    | none => true
    | some sc => sc.RunAsNonRoot.isNone
  if containerSets then true
  else if podUnset then true
  else false

/-! ## Resources

The concrete resource types are aliases of Kubernetes API types.  Each is modelled by
the fields `cmd/util.go` reads.  Embedded `ObjectMeta` is structure extension.  In
`k8s.io/api/core/v1` the field `ReplicationControllerSpec.Template` is a pointer
(`*PodTemplateSpec`); the template of every other workload kind is a value. -/

/-- Object metadata: name, namespace and labels. -/
structure ObjectMeta where
  Name : String
  Namespace : String
  Labels : Labels
  deriving DecidableEq, Repr

/-- Pod template: metadata and pod specification. -/
structure PodTemplateSpec extends ObjectMeta where
  Spec : PodSpecV1
  deriving DecidableEq, Repr

/-- Specification of a daemon set, deployment or stateful set: the pod template. -/
structure WorkloadSpec where
  Template : PodTemplateSpec
  deriving DecidableEq, Repr

/-- Daemon set (Go types `DaemonSetV1`, `DaemonSetV1Beta1`, `DaemonSetV1Beta2`). -/
structure DaemonSet extends ObjectMeta where
  Spec : WorkloadSpec
  deriving DecidableEq, Repr

/-- Deployment (Go types `DeploymentV1`, `DeploymentV1Beta1`, `DeploymentV1Beta2`,
`DeploymentExtensionsV1Beta1`). -/
structure Deployment extends ObjectMeta where
  Spec : WorkloadSpec
  deriving DecidableEq, Repr

/-- Stateful set (Go types `StatefulSetV1`, `StatefulSetV1Beta1`). -/
structure StatefulSet extends ObjectMeta where
  Spec : WorkloadSpec
  deriving DecidableEq, Repr

/-- Specification of a replication controller: `Template` is a pointer and may be nil. -/
structure ReplicationControllerSpec where
  Template : Option PodTemplateSpec
  deriving DecidableEq, Repr

/-- Replication controller (Go type `ReplicationControllerV1`). -/
structure ReplicationController extends ObjectMeta where
  Spec : ReplicationControllerSpec
  deriving DecidableEq, Repr

/-- Job specification: the pod template. -/
structure JobSpec where
  Template : PodTemplateSpec
  deriving DecidableEq, Repr

/-- Job template: metadata and job specification. -/
structure JobTemplateSpec extends ObjectMeta where
  Spec : JobSpec
  deriving DecidableEq, Repr

/-- Cron job specification: the job template. -/
structure CronJobSpec where
  JobTemplate : JobTemplateSpec
  deriving DecidableEq, Repr

/-- Cron job (Go type `CronJobV1Beta1`). -/
structure CronJob extends ObjectMeta where
  Spec : CronJobSpec
  deriving DecidableEq, Repr

/-- Pod (Go type `PodV1`). -/
structure Pod extends ObjectMeta where
  Spec : PodSpecV1
  deriving DecidableEq, Repr

/-- Namespace (Go type `NamespaceV1`). -/
structure Namespace extends ObjectMeta
  deriving DecidableEq, Repr

/-- Group, version and kind of an object, as returned by `GetObjectKind().GroupVersionKind()`. -/
structure GroupVersionKind where
  Group : String
  Version : String
  Kind : String
  deriving DecidableEq, Repr

/-- Method `GroupVersionKind.String`, used by the `%s` verb. -/
def GroupVersionKind.String (gvk : GroupVersionKind) : String :=
  gvk.Group ++ "/" ++ gvk.Version ++ ", Kind=" ++ gvk.Kind

/-- Interface `Resource` by dynamic type: the thirteen types the type switches name, and
every other object, known by its group, version and kind. -/
inductive Resource where
  | CronJobV1Beta1 (r : CronJob)
  | DaemonSetV1 (r : DaemonSet)
  | DaemonSetV1Beta1 (r : DaemonSet)
  | DaemonSetV1Beta2 (r : DaemonSet)
  | DeploymentExtensionsV1Beta1 (r : Deployment)
  | DeploymentV1 (r : Deployment)
  | DeploymentV1Beta1 (r : Deployment)
  | DeploymentV1Beta2 (r : Deployment)
  | PodV1 (r : Pod)
  | ReplicationControllerV1 (r : ReplicationController)
  | StatefulSetV1 (r : StatefulSet)
  | StatefulSetV1Beta1 (r : StatefulSet)
  | NamespaceV1 (r : Namespace)
  | Unhandled (gvk : GroupVersionKind)
  deriving DecidableEq, Repr

/-- Value `&Result{}`: every field holds its zero value. -/
def Result.zero : Result :=
  { KubeType := "", Name := "", Namespace := "", Labels := [], SA := "", DSA := "",
    Token := none }

/-- Message of the run-time panic raised by reading through a nil pointer. -/
def nilDereference : String :=
  "runtime error: invalid memory address or nil pointer dereference"

/-- Return values `(*Result, error, error)`; callers bind them to `result, err, warn`. -/
abbrev Returned := Option Result × Option String × Option String

/-- Source function `newFalse`: a pointer to a fresh `false`. -/
def newFalse : Option Bool := some false

/-- Source function `newTrue`: a pointer to a fresh `true`. -/
def newTrue : Option Bool := some true

/-- Error value built by `fmt.Errorf("resource type %s not supported", gvk)`. -/
def notSupported (gvk : GroupVersionKind) : String :=
  "resource type " ++ gvk.String ++ " not supported"

/-- Source function `newResultFromResource`.  The registry predicate
`IsSupportedGroupVersionKind`, declared outside `cmd/util.go`, is the first argument. -/
def newResultFromResource (IsSupportedGroupVersionKind : Resource → Bool)
    (resource : Resource) : Except String Returned :=
  let result := Result.zero
  match resource with
  | .CronJobV1Beta1 kubeType =>
    .ok (some { result with KubeType := "cronjob", Labels := kubeType.Spec.JobTemplate.Labels,
                            Name := kubeType.Name, Namespace := kubeType.Namespace }, none, none)
  | .DaemonSetV1 kubeType =>
    .ok (some { result with KubeType := "daemonSet", Labels := kubeType.Spec.Template.Labels,
                            Name := kubeType.Name, Namespace := kubeType.Namespace }, none, none)
  | .DaemonSetV1Beta1 kubeType =>
    .ok (some { result with KubeType := "daemonSet", Labels := kubeType.Spec.Template.Labels,
                            Name := kubeType.Name, Namespace := kubeType.Namespace }, none, none)
  | .DaemonSetV1Beta2 kubeType =>
    .ok (some { result with KubeType := "daemonSet", Labels := kubeType.Spec.Template.Labels,
                            Name := kubeType.Name, Namespace := kubeType.Namespace }, none, none)
  | .DeploymentExtensionsV1Beta1 kubeType =>
    .ok (some { result with KubeType := "deployment", Labels := kubeType.Spec.Template.Labels,
                            Name := kubeType.Name, Namespace := kubeType.Namespace }, none, none)
  | .DeploymentV1 kubeType =>
    .ok (some { result with KubeType := "deployment", Labels := kubeType.Spec.Template.Labels,
                            Name := kubeType.Name, Namespace := kubeType.Namespace }, none, none)
  | .DeploymentV1Beta1 kubeType =>
    .ok (some { result with KubeType := "deployment", Labels := kubeType.Spec.Template.Labels,
                            Name := kubeType.Name, Namespace := kubeType.Namespace }, none, none)
  | .DeploymentV1Beta2 kubeType =>
    .ok (some { result with KubeType := "deployment", Labels := kubeType.Spec.Template.Labels,
                            Name := kubeType.Name, Namespace := kubeType.Namespace }, none, none)
  | .PodV1 kubeType =>
    .ok (some { result with KubeType := "pod", Labels := kubeType.Labels,
                            Name := kubeType.Name, Namespace := kubeType.Namespace }, none, none)
  | .ReplicationControllerV1 kubeType =>
    match kubeType.Spec.Template with
    | none => .error nilDereference
    | some template =>
      .ok (some { result with KubeType := "replicationController", Labels := template.Labels,
                              Name := kubeType.Name, Namespace := kubeType.Namespace },
           none, none)
  | .StatefulSetV1 kubeType =>
    .ok (some { result with KubeType := "statefulSet", Labels := kubeType.Spec.Template.Labels,
                            Name := kubeType.Name, Namespace := kubeType.Namespace }, none, none)
  | .StatefulSetV1Beta1 kubeType =>
    .ok (some { result with KubeType := "statefulSet", Labels := kubeType.Spec.Template.Labels,
                            Name := kubeType.Name, Namespace := kubeType.Namespace }, none, none)
  | .NamespaceV1 kubeType =>
    .ok (some { result with KubeType := "namespace", Labels := kubeType.Labels,
                            Name := kubeType.Name, Namespace := kubeType.Namespace }, none, none)
  | .Unhandled gvk =>
    if IsSupportedGroupVersionKind resource then .ok (none, none, some (notSupported gvk))
    else .ok (none, some (notSupported gvk), none)

/-- Assignments `result.DSA`, `result.SA`, `result.Token` from a pod specification. -/
def Result.withServiceAccount (result : Result) (spec : PodSpecV1) : Result :=
  { result with DSA := spec.DeprecatedServiceAccount, SA := spec.ServiceAccountName,
                Token := spec.AutomountServiceAccountToken }

/-- Source function `newResultFromResourceWithServiceAccountInfo`. -/
def newResultFromResourceWithServiceAccountInfo (IsSupportedGroupVersionKind : Resource → Bool)
    (resource : Resource) : Except String Returned :=
  match newResultFromResource IsSupportedGroupVersionKind resource with
  | .error e => .error e
  | .ok (result, err, warn) =>
    if warn ≠ none ∨ err ≠ none then .ok (none, err, warn)
    else
      match result with
      | none =>
        match resource with
        | .Unhandled _ => .ok (none, none, none)
        | _ => .error nilDereference
      | some result =>
        match resource with
        | .CronJobV1Beta1 kubeType =>
          .ok (some (result.withServiceAccount kubeType.Spec.JobTemplate.Spec.Template.Spec),
               none, none)
        | .DaemonSetV1Beta1 kubeType =>
          .ok (some (result.withServiceAccount kubeType.Spec.Template.Spec), none, none)
        | .DaemonSetV1Beta2 kubeType =>
          .ok (some (result.withServiceAccount kubeType.Spec.Template.Spec), none, none)
        | .DaemonSetV1 kubeType =>
          .ok (some (result.withServiceAccount kubeType.Spec.Template.Spec), none, none)
        | .DeploymentV1Beta1 kubeType =>
          .ok (some (result.withServiceAccount kubeType.Spec.Template.Spec), none, none)
        | .DeploymentV1Beta2 kubeType =>
          .ok (some (result.withServiceAccount kubeType.Spec.Template.Spec), none, none)
        | .DeploymentV1 kubeType =>
          .ok (some (result.withServiceAccount kubeType.Spec.Template.Spec), none, none)
        | .DeploymentExtensionsV1Beta1 kubeType =>
          .ok (some (result.withServiceAccount kubeType.Spec.Template.Spec), none, none)
        | .PodV1 kubeType =>
          .ok (some (result.withServiceAccount kubeType.Spec), none, none)
        | .ReplicationControllerV1 kubeType =>
          match kubeType.Spec.Template with
          | none => .error nilDereference
          | some template => .ok (some (result.withServiceAccount template.Spec), none, none)
        | .StatefulSetV1Beta1 kubeType =>
          .ok (some (result.withServiceAccount kubeType.Spec.Template.Spec), none, none)
        | .StatefulSetV1 kubeType =>
          .ok (some (result.withServiceAccount kubeType.Spec.Template.Spec), none, none)
        | .NamespaceV1 _ => .ok (some { result with Token := newFalse }, none, none)
        | .Unhandled _ => .ok (some result, none, none)

/-! ## Views used to state the normalisation properties -/

/-- Metadata of the source object, for the thirteen handled variants. -/
def Resource.objectMeta : Resource → Option ObjectMeta
  | .CronJobV1Beta1 r => some r.toObjectMeta
  | .DaemonSetV1 r => some r.toObjectMeta
  | .DaemonSetV1Beta1 r => some r.toObjectMeta
  | .DaemonSetV1Beta2 r => some r.toObjectMeta
  | .DeploymentExtensionsV1Beta1 r => some r.toObjectMeta
  | .DeploymentV1 r => some r.toObjectMeta
  | .DeploymentV1Beta1 r => some r.toObjectMeta
  | .DeploymentV1Beta2 r => some r.toObjectMeta
  | .PodV1 r => some r.toObjectMeta
  | .ReplicationControllerV1 r => some r.toObjectMeta
  | .StatefulSetV1 r => some r.toObjectMeta
  | .StatefulSetV1Beta1 r => some r.toObjectMeta
  | .NamespaceV1 r => some r.toObjectMeta
  | .Unhandled _ => none

/-- True for the thirteen variants named by the type switches. -/
def Resource.isHandled (r : Resource) : Bool := r.objectMeta.isSome

/-- Kind table of the specification: the `KubeType` string fixed for each kind,
whatever the schema version. -/
def Resource.kindString : Resource → Option String
  | .CronJobV1Beta1 _ => some "cronjob"
  | .DaemonSetV1 _ | .DaemonSetV1Beta1 _ | .DaemonSetV1Beta2 _ => some "daemonSet"
  | .DeploymentExtensionsV1Beta1 _ | .DeploymentV1 _ | .DeploymentV1Beta1 _
  | .DeploymentV1Beta2 _ => some "deployment"
  | .PodV1 _ => some "pod"
  | .ReplicationControllerV1 _ => some "replicationController"
  | .StatefulSetV1 _ | .StatefulSetV1Beta1 _ => some "statefulSet"
  | .NamespaceV1 _ => some "namespace"
  | .Unhandled _ => none

/-- Pod specification of a workload: the pod's own spec for `PodV1`, the pod template's
spec otherwise (through the job template for `CronJobV1Beta1`).  There is none for a
namespace, an unhandled object, or a replication controller whose template is nil. -/
def Resource.podSpec : Resource → Option PodSpecV1
  | .CronJobV1Beta1 r => some r.Spec.JobTemplate.Spec.Template.Spec
  | .DaemonSetV1 r | .DaemonSetV1Beta1 r | .DaemonSetV1Beta2 r => some r.Spec.Template.Spec
  | .DeploymentExtensionsV1Beta1 r | .DeploymentV1 r | .DeploymentV1Beta1 r
  | .DeploymentV1Beta2 r => some r.Spec.Template.Spec
  | .PodV1 r => some r.Spec
  | .ReplicationControllerV1 r => r.Spec.Template.map (fun t => t.Spec)
  | .StatefulSetV1 r | .StatefulSetV1Beta1 r => some r.Spec.Template.Spec
  | .NamespaceV1 _ => none
  | .Unhandled _ => none

/-- True for the twelve handled workload variants: every handled variant but `NamespaceV1`. -/
def Resource.isWorkload : Resource → Bool
  | .NamespaceV1 _ => false
  | .Unhandled _ => false
  | _ => true

/-- True unless the resource is a replication controller whose `Spec.Template` is nil. -/
def Resource.templatePresent : Resource → Bool
  | .ReplicationControllerV1 r => r.Spec.Template.isSome
  | _ => true

/-! ## Example values -/

/-- World without an audit configuration. -/
def worldNoConfig : World :=
  { rootConfig := { auditConfig := "" },
    loadConfig := fun _ => { Spec := none },
    mapOverridesToStructFields := fun s => s }

/-- World whose audit configuration allows privilege escalation. -/
def worldAllow : World :=
  { rootConfig := { auditConfig := "config.yaml" },
    loadConfig := fun _ => { Spec := some { Overrides := some [("PrivilegeEscalation", "allow")] } },
    mapOverridesToStructFields := fun s =>
      if s = "allow-privilege-escalation" then "PrivilegeEscalation" else "" }

/-- Container named `web` without a security context. -/
def webContainer : ContainerV1 := { Name := "web", SecurityContext := none }

/-- Result carrying the given labels. -/
def resultWith (labels : Labels) : Result := { Result.zero with Labels := labels }

/-- Replication controller decoded from a manifest document that has no `spec.template`. -/
def rcWithoutTemplate : Resource :=
  .ReplicationControllerV1
    { Name := "rc", Namespace := "default", Labels := [], Spec := { Template := none } }

/-- Pod specification with a named service account. -/
def samplePodSpec : PodSpecV1 :=
  { ServiceAccountName := "builder", DeprecatedServiceAccount := "old-builder",
    AutomountServiceAccountToken := some true, SecurityContext := none }

/-- Deployment with a pod template. -/
def sampleDeployment : Resource :=
  .DeploymentV1
    { Name := "api", Namespace := "prod", Labels := [("app", "api")],
      Spec := { Template := { Name := "", Namespace := "", Labels := [("tier", "web")],
                              Spec := samplePodSpec } } }

/-- Object of a kind no type switch names. -/
def sampleJob : Resource := .Unhandled { Group := "batch", Version := "v1", Kind := "Job" }

/-! ## Reason rendering -/

/-- Library function `unicode.ToLower`: an ASCII rune is lowered by the `A`..`Z` rule; a
rune outside ASCII is looked up in the Unicode case tables, given here as `table`. -/
def toLowerRune (table : Char → Char) (c : Char) : Char :=
  if c.toNat < 128 then c.toLower else table c

/-- Library function `strings.ToLower`: every rune mapped by `unicode.ToLower`. -/
def stringsToLower (table : Char → Char) (s : String) : String :=
  String.mk (s.data.map (toLowerRune table))

/-- Source function `prettifyReason`. -/
def prettifyReason (table : Char → Char) (reason : String) : String :=
  if stringsToLower table reason = "true" then "Unspecified" else reason

/-- The word "true" in any mix of upper and lower case. -/
def isTrueAnyCase (r : String) : Bool :=
  match r.data with
  | [a, b, c, d] =>
    (a == 't' || a == 'T') && (b == 'r' || b == 'R') && (c == 'u' || c == 'U')
      && (d == 'e' || d == 'E')
  | _ => false

/-- Property of the Unicode case tables used by `prettifyReason`: no rune outside ASCII
lowers to one of `t`, `r`, `u`, `e` (the only runes outside ASCII that lower into ASCII
are U+0130, to `i`, and U+212A, to `k`). -/
def TableAvoidsTrue (table : Char → Char) : Prop :=
  ∀ d : Char, 128 ≤ d.toNat →
    table d ≠ 't' ∧ table d ≠ 'r' ∧ table d ≠ 'u' ∧ table d ≠ 'e'

/-- Case table holding the two runes outside ASCII that lower into ASCII. -/
def sampleUnicodeLower (c : Char) : Char :=
  if c = Char.ofNat 0x212A then 'k' else if c = Char.ofNat 0x130 then 'i' else c

/-! ## Capability sets (`cmd/cap_set.go`) -/

/-- Capability name, Go type `Capability` (a string type). -/
abbrev Capability := String

/-- Go type `CapSet`, `map[Capability]bool`: an association list with distinct keys.
The map write `set[k] = v` is `AList.insert k v set`, the read is `AList.lookup`. -/
abbrev CapSet := AList (fun _ : Capability => Bool)

/-- Two maps hold the same keys with the same stored values. -/
def CapSet.SameMap (a b : CapSet) : Prop := ∀ k, a.lookup k = b.lookup k

/-- Source function `NewCapSetFromArray`. -/
def NewCapSetFromArray (array : List Capability) : CapSet :=
  array.foldl (fun set cap => set.insert cap true) ∅

/-- Inner loop of `mergeCapSets`: `for k, v := range set { merged[k] = v }`.  The keys
of a map are distinct, so the outcome does not depend on the order of the iteration. -/
def CapSet.copyInto (merged set : CapSet) : CapSet :=
  set.entries.foldl (fun m e => m.insert e.1 e.2) merged

/-- Source function `mergeCapSets`; the variadic argument is a list. -/
def mergeCapSets (sets : List CapSet) : CapSet :=
  sets.foldl CapSet.copyInto ∅

/-- Order of `sort.Strings`: byte-wise lexicographic, which on UTF-8 text is the
lexicographic order of the code points. -/
def stringLE (a b : String) : Prop := a.data ≤ b.data

instance stringLE_decidable : DecidableRel stringLE := fun a b =>
  inferInstanceAs (Decidable (a.data ≤ b.data))

instance stringLE_total : IsTotal String stringLE := ⟨fun a b => le_total a.data b.data⟩

instance stringLE_trans : IsTrans String stringLE :=
  ⟨fun a b c (h1 : a.data ≤ b.data) (h2 : b.data ≤ c.data) => le_trans h1 h2⟩

instance stringLE_antisymm : IsAntisymm String stringLE :=
  ⟨fun a b (h1 : a.data ≤ b.data) (h2 : b.data ≤ a.data) => String.ext (le_antisymm h1 h2)⟩

/-- Library function `sort.Strings`. -/
def sortStrings (keys : List String) : List String :=
  keys.insertionSort stringLE

/-- Source function `sortCapSet`: the keys are collected, sorted, and copied out. -/
def sortCapSet (capSet : CapSet) : List Capability :=
  sortStrings capSet.keys

/-! ## Audit dispatch

`getResults` starts goroutines that hand one accumulator slice around through a channel
of capacity one.  It is modelled as a transition system: `Dispatch` is the state of one
call, `Dispatch.next` lists the steps that are enabled (one per goroutine that can move),
and `Dispatch.run` follows a schedule, a list of choices among the enabled steps.  The
properties are proved for every schedule. -/

/-- Image parameters `imgFlags` of the process-wide `imgConfig`. -/
structure ImgFlags where
  img : String
  name : String
  tag : String
  deriving DecidableEq, Repr

/-- Resource-limit parameters `limitFlags` of the process-wide `limitConfig`. -/
structure LimitFlags where
  cpuArg : String
  memoryArg : String
  deriving DecidableEq, Repr

/-- Dynamic type of the `auditFunc interface{}` argument: the three shapes named by the
type switches, and any other value. -/
inductive AuditFunc where
  | target (f : Resource → List Result)
  | image (f : ImgFlags → Resource → List Result)
  | limits (f : LimitFlags → Resource → List Result)
  | other (name : String)

/-- Process-wide parameters read by the dispatcher. -/
structure DispatchConfig where
  imgConfig : ImgFlags
  limitConfig : LimitFlags

/-- Type switch of a worker goroutine: the results of the rule on a resource, or `none`
in the default branch (`log.Fatal`). -/
def AuditFunc.call (cfg : DispatchConfig) : AuditFunc → Resource → Option (List Result)
  | .target f, resource => some (f resource)
  | .image f, resource => some (f cfg.imgConfig resource)
  | .limits f, resource => some (f cfg.limitConfig resource)
  | .other _, _ => none

/-- How a call ends. -/
inductive Outcome where
  | returned (results : List Result)
  | panic (msg : String)
  | fatal (msg : String)
  | deadlock
  | outOfFuel
  deriving DecidableEq, Repr

/-- State of one call of `getResults`. -/
structure Dispatch where
  /-- The goroutine `go func() { resultsChannel <- []Result{} }()` has yet to send. -/
  starter : Bool
  /-- Buffer of `resultsChannel`, of capacity one. -/
  chan : Option (List Result)
  /-- The channel `resultsChannel` is closed. -/
  closed : Bool
  /-- Resources the `range` loop has yet to reach. -/
  todo : List Resource
  /-- Worker goroutines that have yet to send, each with its resource and the slice
  `results` it captured. -/
  workers : List (Resource × List Result)
  /-- Worker goroutines that have sent and have yet to call `wg.Done()`. -/
  finishing : Nat
  /-- Counter of the wait group. -/
  wg : Nat
  /-- Set once the call has ended. -/
  exit : Option Outcome
  deriving DecidableEq, Repr

/-- State after `wg.Add(len(resources))`, `make(chan []Result, 1)` and the first `go`. -/
def Dispatch.init (resources : List Resource) : Dispatch :=
  { starter := true, chan := none, closed := false, todo := resources, workers := [],
    finishing := 0, wg := resources.length, exit := none }

/-- Step of the first goroutine: send the empty slice.  The send waits while the buffer
is full and panics on a closed channel. -/
def Dispatch.starterStep (s : Dispatch) : List Dispatch :=
  if s.starter then
    if s.closed then
      [{ s with starter := false, exit := some (.panic "send on closed channel") }]
    else
      match s.chan with
      | none => [{ s with starter := false, chan := some [] }]
      | some _ => []
  else []

/-- Step of the calling goroutine.  In the loop: receive `results` and start the worker
of the next resource.  After the loop: `wg.Wait()` passes when the counter is zero and the
channel is closed; then the receive on the closed channel yields the buffered slice (or
nil when the buffer is empty), which is copied and returned. -/
def Dispatch.mainStep (s : Dispatch) : List Dispatch :=
  match s.todo with
  | resource :: rest =>
    match s.chan with
    | some results =>
      [{ s with chan := none, todo := rest, workers := s.workers ++ [(resource, results)] }]
    | none => []
  | [] =>
    if s.closed then
      [{ s with chan := none, exit := some (.returned (s.chan.getD [])) }]
    else if s.wg = 0 then [{ s with closed := true }]
    else []

/-- Step of the worker at position `i`: the type switch, then the send of
`append(results, f(resource)...)`. -/
def Dispatch.workerStep (call : Resource → Option (List Result)) (s : Dispatch) (i : Nat) :
    List Dispatch :=
  match s.workers.get? i with
  | none => []
  | some (resource, results) =>
    match call resource with
    | none =>
      [{ s with workers := s.workers.eraseIdx i,
                exit := some (.fatal "Invalid audit function provided") }]
    | some found =>
      if s.closed then
        [{ s with workers := s.workers.eraseIdx i,
                  exit := some (.panic "send on closed channel") }]
      else
        match s.chan with
        | none =>
          [{ s with chan := some (results ++ found), workers := s.workers.eraseIdx i,
                    finishing := s.finishing + 1 }]
        | some _ => []

/-- Step of a worker that has sent: `wg.Done()`. -/
def Dispatch.doneStep (s : Dispatch) : List Dispatch :=
  if 0 < s.finishing then [{ s with finishing := s.finishing - 1, wg := s.wg - 1 }] else []

/-- Every step that is enabled in a state. -/
def Dispatch.next (call : Resource → Option (List Result)) (s : Dispatch) : List Dispatch :=
  match s.exit with
  | some _ => []
  | none =>
    s.starterStep ++ s.mainStep
      ++ (List.range s.workers.length).flatMap (s.workerStep call) ++ s.doneStep

/-- Execution under a schedule: at each step the head of the schedule chooses among the
enabled steps. -/
def Dispatch.run (call : Resource → Option (List Result)) :
    Nat → List Nat → Dispatch → Outcome
  | 0, _, s => s.exit.getD .outOfFuel
  | fuel + 1, sched, s =>
    match s.exit with
    | some o => o
    | none =>
      match (s.next call).get? (sched.headD 0 % (s.next call).length) with
      | none => .deadlock
      | some t => Dispatch.run call fuel sched.tail t

/-- Number of steps a call can still take. -/
def Dispatch.measure (s : Dispatch) : Nat :=
  (if s.starter then 1 else 0) + 3 * s.todo.length + 2 * s.workers.length + s.finishing
    + (match s.exit with
       | some _ => 0
       | none => if s.closed then 1 else 2)

/-- Source function `getResults`, under a schedule of its goroutines. -/
def getResults (cfg : DispatchConfig) (sched : List Nat) (resources : List Resource)
    (auditFunc : AuditFunc) : Outcome :=
  Dispatch.run (auditFunc.call cfg) (3 * resources.length + 3) sched (Dispatch.init resources)

/-- Loop of the function returned by `mergeAuditFunctions`; `scheds` holds one schedule
for each call of `getResults`. -/
def mergeAuditFunctionsLoop (cfg : DispatchConfig) (resource : Resource) :
    List (List Nat) → List AuditFunc → List Result → Outcome
  | _, [], results => .returned results
  | scheds, function :: rest, results =>
    match getResults cfg (scheds.headD []) [resource] function with
    | .returned found => mergeAuditFunctionsLoop cfg resource scheds.tail rest (results ++ found)
    | o => o

/-- Source function `mergeAuditFunctions`. -/
def mergeAuditFunctions (cfg : DispatchConfig) (scheds : List (List Nat))
    (auditFunctions : List AuditFunc) (resource : Resource) : Outcome :=
  mergeAuditFunctionsLoop cfg resource scheds auditFunctions []

/-- Invariant of a call on a non-empty list `rs` with a rule `g` that always answers:
exactly one holder has the accumulator, and it holds the results of the resources
reached so far, in order. -/
inductive Dispatch.Inv (g : Resource → List Result) (rs : List Resource) : Dispatch → Prop
  | start (hne : rs ≠ []) : Dispatch.Inv g rs (Dispatch.init rs)
  | inChan (pre todo : List Resource) (j : Nat) (hrs : rs = pre ++ todo) :
      Dispatch.Inv g rs
        { starter := false, chan := some (pre.flatMap g), closed := false, todo := todo,
          workers := [], finishing := j, wg := todo.length + j, exit := none }
  | inWorker (pre : List Resource) (r : Resource) (todo : List Resource) (j : Nat)
      (hrs : rs = pre ++ r :: todo) :
      Dispatch.Inv g rs
        { starter := false, chan := none, closed := false, todo := todo,
          workers := [(r, pre.flatMap g)], finishing := j, wg := todo.length + 1 + j,
          exit := none }
  | closing :
      Dispatch.Inv g rs
        { starter := false, chan := some (rs.flatMap g), closed := true, todo := [],
          workers := [], finishing := 0, wg := 0, exit := none }
  | done :
      Dispatch.Inv g rs
        { starter := false, chan := none, closed := true, todo := [],
          workers := [], finishing := 0, wg := 0, exit := some (.returned (rs.flatMap g)) }

/-- Sample rule: one result per resource that normalises, none otherwise. -/
def sampleRule (resource : Resource) : List Result :=
  match newResultFromResource (fun _ => false) resource with
  | .ok (some result, _, _) => [result]
  | _ => []

/-- Sample process-wide parameters: no image configured. -/
def sampleConfig : DispatchConfig :=
  { imgConfig := { img := "", name := "", tag := "" },
    limitConfig := { cpuArg := "", memoryArg := "" } }

/-! ## Manifest reading and the audit run -/

/-- Collaborators of `getKubeResourcesManifest`, all declared outside `cmd/util.go`. -/
structure ManifestEnv where
  /-- Library call `ioutil.ReadFile`: the content, or the error. -/
  readFile : String → Except String String
  /-- Library call `bytes.Split(buf, []byte("---"))`. -/
  split : String → List String
  /-- Call `decoder.Decode(b, nil, nil)`: the object when `err == nil && obj != nil`. -/
  decode : String → Option Resource
  /-- Helper `isCommentSlice`. -/
  isCommentSlice : String → Bool
  /-- Registry predicate `IsSupportedResourceType`. -/
  IsSupportedResourceType : Resource → Bool

/-- Lines written to the log. -/
inductive LogLine where
  | error (msg : String)
  | skipping (obj : Resource)
  deriving DecidableEq, Repr

/-- Loop of `getKubeResourcesManifest` over the documents: the objects appended to
`decoded`, the error, and the log. -/
def decodeDocuments (env : ManifestEnv) :
    List String → List Resource → List LogLine → List Resource × Option String × List LogLine
  | [], decoded, log => (decoded, none, log)
  | b :: rest, decoded, log =>
    match env.decode b with
    | some obj =>
      if !env.IsSupportedResourceType obj then
        decodeDocuments env rest (decoded ++ [obj]) (log ++ [.skipping obj])
      else
        decodeDocuments env rest (decoded ++ [obj]) log
    | none =>
      if !env.isCommentSlice b then
        (decoded, some "File is not a valid Kubernetes manifest", log)
      else decodeDocuments env rest decoded log

/-- Source function `getKubeResourcesManifest`: the returned `decoded` and `err`, and
the lines logged. -/
def getKubeResourcesManifest (env : ManifestEnv) (filename : String) :
    List Resource × Option String × List LogLine :=
  match env.readFile filename with
  | .error err => ([], some err, [.error "File not found"])
  | .ok buf => decodeDocuments env (env.split buf) [] []

/-- Source function `checkParams`: the error returned and the value left in the
process-wide `imgConfig`.  The method `splitImageString`, declared outside
`cmd/util.go`, is the first argument. -/
def checkParams (splitImageString : ImgFlags → ImgFlags) (imgConfig : ImgFlags)
    (auditFunc : AuditFunc) : Option String × ImgFlags :=
  match auditFunc with
  | .image _ =>
    if imgConfig.img.utf8ByteSize = 0 then
      (some "Empty image name. Are you missing the image flag?", imgConfig)
    else
      let imgConfig := splitImageString imgConfig
      if imgConfig.tag.utf8ByteSize = 0 then
        (some "Empty image tag. Are you missing the image tag?", imgConfig)
      else (none, imgConfig)
  | _ => (none, imgConfig)

/-- Observable actions of an audit run, in order. -/
inductive Event where
  | logError (msg : String)
  | setFormatter
  | getResources
  | getResults (resources : List Resource)
  | print (result : Result)
  | abort (outcome : Outcome)
  deriving DecidableEq, Repr

/-- What an audit run reads besides the rule. -/
structure AuditEnv where
  /-- Process-wide `imgConfig`. -/
  imgConfig : ImgFlags
  /-- Process-wide `limitConfig`. -/
  limitConfig : LimitFlags
  /-- Method `splitImageString`. -/
  splitImageString : ImgFlags → ImgFlags
  /-- What the call `getResources()` returns: the resources and the error. -/
  resources : List Resource × Option String
  /-- Schedule of the goroutines of `getResults`. -/
  sched : List Nat

/-- Source function `runAudit`: the actions of the returned command function. -/
def runAudit (env : AuditEnv) (auditFunc : AuditFunc) : List Event :=
  let checked := checkParams env.splitImageString env.imgConfig auditFunc
  let logged : List Event :=
    match checked.1 with
    | some err => [.logError "Parameter check failed", .logError err]
    | none => []
  let fetched : List Event := logged ++ [.setFormatter, .getResources]
  match env.resources.2 with
  | some err => fetched ++ [.logError "getResources failed", .logError err]
  | none =>
    match getResults { imgConfig := checked.2, limitConfig := env.limitConfig } env.sched
        env.resources.1 auditFunc with
    | .returned results =>
      fetched ++ [.getResults env.resources.1] ++ results.map Event.print
    | outcome => fetched ++ [.getResults env.resources.1, .abort outcome]

/-- Sample image-aware rule: one result per resource that normalises. -/
def sampleImageRule (_ : ImgFlags) (resource : Resource) : List Result :=
  sampleRule resource

/-- Sample split of `name:tag`, for image strings without a colon: no tag. -/
def sampleSplit (image : ImgFlags) : ImgFlags := { image with name := image.img }

/-- Audit run with no image configured, over one deployment. -/
def auditEnvNoImage : AuditEnv :=
  { imgConfig := { img := "", name := "", tag := "" },
    limitConfig := { cpuArg := "", memoryArg := "" },
    splitImageString := sampleSplit,
    resources := ([sampleDeployment], none),
    sched := [] }

/-- Pod with a pod specification. -/
def samplePod : Resource :=
  .PodV1 { Name := "db", Namespace := "prod", Labels := [], Spec := samplePodSpec }

/-- Manifest of three documents: a deployment, a batch job, a pod; the registry supports
every handled variant and nothing else. -/
def manifestEnv : ManifestEnv :=
  { readFile := fun _ => .ok "deployment---job---pod",
    split := fun _ => ["deployment", "job", "pod"],
    decode := fun b =>
      if b = "deployment" then some sampleDeployment
      else if b = "job" then some sampleJob
      else if b = "pod" then some samplePod
      else none,
    isCommentSlice := fun _ => false,
    IsSupportedResourceType := fun r => r.isHandled }

/-! ## Lemmas on label lookup -/

theorem Labels.get_eq_empty (m : Labels) (k : String) :
    m.get k = "" ↔ m.lookup k = none ∨ m.lookup k = some "" := by
  unfold Labels.get
  cases h : m.lookup k with
  | none => simp
  | some v => simp

theorem fieldByNameString_eq_allow (o : KubeauditConfigOverrides) (name : String) :
    fieldByNameString o name = "allow" ↔ o.lookup name = some "allow" := by
  unfold fieldByNameString
  cases h : o.lookup name with
  | none => simp
  | some v => simp

theorem containerKey_assoc (name key : String) :
    "container.audit.kubernetes.io/" ++ name ++ "/" ++ ("allow-capability-" ++ key)
      = "container.audit.kubernetes.io/" ++ name ++ "/allow-capability-" ++ key := by
  rw [← String.append_assoc, String.append_assoc _ "/" "allow-capability-"]
  rfl

/-! ## Override resolution: theorems -/

/-- C1: when the container-level label of the key has a non-empty value `v`, the
container resolver returns `(true, v)`, for every world (pod-level label included in
`result`, global configuration included in `w`). -/
theorem getContainerOverrideLabelReason_container_wins (w : World) (result : Result)
    (container : ContainerV1) (key v : String)
    (hlabel : result.Labels.get
      ("container.audit.kubernetes.io/" ++ container.Name ++ "/" ++ key) = v)
    (hv : v ≠ "") :
    getContainerOverrideLabelReason w result container key = (true, v) := by
  subst hlabel
  simp only [getContainerOverrideLabelReason]
  rw [if_pos hv]

/-- Witness of C1: both labels are set and the configuration allows; the container
reason is returned. -/
theorem getContainerOverrideLabelReason_container_wins_witness :
    (resultWith [("container.audit.kubernetes.io/web/allow-privilege-escalation", "c"),
                 ("audit.kubernetes.io/pod/allow-privilege-escalation", "p")]).Labels.get
        ("audit.kubernetes.io/pod/" ++ "allow-privilege-escalation") = "p" ∧
    getContainerOverrideLabelReason worldAllow
      (resultWith [("container.audit.kubernetes.io/web/allow-privilege-escalation", "c"),
                   ("audit.kubernetes.io/pod/allow-privilege-escalation", "p")])
      webContainer "allow-privilege-escalation" = (true, "c") :=
  ⟨by decide,
   getContainerOverrideLabelReason_container_wins worldAllow _ webContainer
     "allow-privilege-escalation" "c" (by decide) (by decide)⟩

/-- C2: when the container-level label is absent or empty and the pod-level label has
a non-empty value `v`, both resolvers return `(true, v)`, for every world. -/
theorem override_pod_label_returned (w : World) (result : Result)
    (container : ContainerV1) (key v : String)
    (hcontainer : result.Labels.get
      ("container.audit.kubernetes.io/" ++ container.Name ++ "/" ++ key) = "")
    (hpod : result.Labels.get ("audit.kubernetes.io/pod/" ++ key) = v)
    (hv : v ≠ "") :
    getContainerOverrideLabelReason w result container key = (true, v) ∧
    getPodOverrideLabelReason w result key = (true, v) := by
  subst hpod
  have hp : getPodOverrideLabelReason w result key
      = (true, result.Labels.get ("audit.kubernetes.io/pod/" ++ key)) := by
    simp only [getPodOverrideLabelReason]
    rw [if_pos hv]
  refine ⟨?_, hp⟩
  simp only [getContainerOverrideLabelReason]
  rw [hcontainer, if_neg (by simp), hp]

/-- Witness of C2: only the pod label is set, the configuration allows. -/
theorem override_pod_label_returned_witness :
    getContainerOverrideLabelReason worldAllow
        (resultWith [("audit.kubernetes.io/pod/allow-privilege-escalation", "p")])
        webContainer "allow-privilege-escalation" = (true, "p") ∧
    getPodOverrideLabelReason worldAllow
        (resultWith [("audit.kubernetes.io/pod/allow-privilege-escalation", "p")])
        "allow-privilege-escalation" = (true, "p") :=
  override_pod_label_returned worldAllow _ webContainer "allow-privilege-escalation" "p"
    (by decide) (by decide) (by decide)

/-- Both resolvers, once neither label is set and a configuration is named: the outcome
is decided by the loaded configuration alone. -/
theorem override_no_labels (w : World) (result : Result) (container : ContainerV1)
    (key : String)
    (hcontainer : result.Labels.get
      ("container.audit.kubernetes.io/" ++ container.Name ++ "/" ++ key) = "")
    (hpod : result.Labels.get ("audit.kubernetes.io/pod/" ++ key) = "") :
    getContainerOverrideLabelReason w result container key
      = getPodOverrideLabelReason w result key ∧
    getPodOverrideLabelReason w result key =
      if w.rootConfig.auditConfig ≠ "" then
        match (w.loadConfig w.rootConfig.auditConfig).Spec with
        | none => (false, "")
        | some spec =>
          match spec.Overrides with
          | none => (false, "")
          | some overrides =>
            if fieldByNameString overrides (w.mapOverridesToStructFields key) = "allow" then
              (true, "Allowed " ++ key ++ " in kubeauditConfig")
            else (false, "")
      else (false, "") := by
  constructor
  · simp only [getContainerOverrideLabelReason]
    rw [hcontainer, if_neg (by simp)]
  · simp only [getPodOverrideLabelReason]
    rw [hpod, if_neg (by simp)]

/-- C3 as stated fails: with neither label set and a configuration whose mapped field
holds `"allow"`, the reason returned is not `"Allowed <key> in config"`. -/
theorem config_reason_counterexample :
    (resultWith []).Labels.get
      ("container.audit.kubernetes.io/" ++ webContainer.Name ++ "/"
        ++ "allow-privilege-escalation") = "" ∧
    (resultWith []).Labels.get ("audit.kubernetes.io/pod/" ++ "allow-privilege-escalation")
      = "" ∧
    worldAllow.rootConfig.auditConfig ≠ "" ∧
    worldAllow.loadConfig worldAllow.rootConfig.auditConfig
      = { Spec := some { Overrides := some [("PrivilegeEscalation", "allow")] } } ∧
    List.lookup (worldAllow.mapOverridesToStructFields "allow-privilege-escalation")
      [("PrivilegeEscalation", "allow")] = some "allow" ∧
    getPodOverrideLabelReason worldAllow (resultWith []) "allow-privilege-escalation"
      ≠ (true, "Allowed " ++ "allow-privilege-escalation" ++ " in config") ∧
    getContainerOverrideLabelReason worldAllow (resultWith []) webContainer
      "allow-privilege-escalation"
      ≠ (true, "Allowed " ++ "allow-privilege-escalation" ++ " in config") := by
  refine ⟨by decide, by decide, by decide, rfl, by decide, by decide, by decide⟩

/-- C3, amended: with neither label set and a supplied configuration whose overrides
field mapped from the key holds `"allow"`, both resolvers return suppressed with the
reason `"Allowed <key> in kubeauditConfig"`. -/
theorem override_config_allow (w : World) (result : Result) (container : ContainerV1)
    (key : String) (overrides : KubeauditConfigOverrides)
    (hcontainer : result.Labels.get
      ("container.audit.kubernetes.io/" ++ container.Name ++ "/" ++ key) = "")
    (hpod : result.Labels.get ("audit.kubernetes.io/pod/" ++ key) = "")
    (hsupplied : w.rootConfig.auditConfig ≠ "")
    (hconfig : w.loadConfig w.rootConfig.auditConfig
      = { Spec := some { Overrides := some overrides } })
    (hallow : overrides.lookup (w.mapOverridesToStructFields key) = some "allow") :
    getPodOverrideLabelReason w result key
      = (true, "Allowed " ++ key ++ " in kubeauditConfig") ∧
    getContainerOverrideLabelReason w result container key
      = (true, "Allowed " ++ key ++ " in kubeauditConfig") := by
  obtain ⟨hc, hp⟩ := override_no_labels w result container key hcontainer hpod
  have hf := (fieldByNameString_eq_allow overrides (w.mapOverridesToStructFields key)).2 hallow
  rw [hc, hp, if_pos hsupplied, hconfig]
  simp only [hf, if_true, and_self]

/-- Witness of C3, amended. -/
theorem override_config_allow_witness :
    getPodOverrideLabelReason worldAllow (resultWith []) "allow-privilege-escalation"
      = (true, "Allowed " ++ "allow-privilege-escalation" ++ " in kubeauditConfig") ∧
    getContainerOverrideLabelReason worldAllow (resultWith []) webContainer
      "allow-privilege-escalation"
      = (true, "Allowed " ++ "allow-privilege-escalation" ++ " in kubeauditConfig") :=
  override_config_allow worldAllow (resultWith []) webContainer "allow-privilege-escalation"
    [("PrivilegeEscalation", "allow")] (by decide) (by decide) (by decide) rfl (by decide)

/-- C4: with neither label set, when no configuration is named, or the loaded
configuration has no `Spec`, or its `Spec` has no `Overrides`, or the mapped overrides
field does not hold `"allow"`, both resolvers return `(false, "")`.  Both are total
functions: no input makes them fail. -/
theorem override_not_suppressed (w : World) (result : Result) (container : ContainerV1)
    (key : String)
    (hcontainer : result.Labels.get
      ("container.audit.kubernetes.io/" ++ container.Name ++ "/" ++ key) = "")
    (hpod : result.Labels.get ("audit.kubernetes.io/pod/" ++ key) = "")
    (hconfig : w.rootConfig.auditConfig = "" ∨
      (w.loadConfig w.rootConfig.auditConfig).Spec = none ∨
      (∃ spec, (w.loadConfig w.rootConfig.auditConfig).Spec = some spec ∧
        spec.Overrides = none) ∨
      (∃ spec overrides, (w.loadConfig w.rootConfig.auditConfig).Spec = some spec ∧
        spec.Overrides = some overrides ∧
        overrides.lookup (w.mapOverridesToStructFields key) ≠ some "allow")) :
    getPodOverrideLabelReason w result key = (false, "") ∧
    getContainerOverrideLabelReason w result container key = (false, "") := by
  obtain ⟨hc, hp⟩ := override_no_labels w result container key hcontainer hpod
  rw [hc, and_self, hp]
  by_cases hs : w.rootConfig.auditConfig = ""
  · rw [if_neg (by simp [hs])]
  · rw [if_pos hs]
    rcases hconfig with h | h | ⟨spec, h, ho⟩ | ⟨spec, overrides, h, ho, hne⟩
    · exact absurd h hs
    · rw [h]
    · rw [h]; simp only [ho]
    · rw [h]; simp only [ho]
      rw [if_neg]
      intro hf
      exact hne ((fieldByNameString_eq_allow _ _).1 hf)

/-- Witness of C4: a configuration is supplied and its mapped field holds `"deny"`. -/
theorem override_not_suppressed_witness :
    getPodOverrideLabelReason
      { worldAllow with loadConfig := fun _ =>
          { Spec := some { Overrides := some [("PrivilegeEscalation", "deny")] } } }
      (resultWith []) "allow-privilege-escalation" = (false, "") ∧
    getContainerOverrideLabelReason
      { worldAllow with loadConfig := fun _ =>
          { Spec := some { Overrides := some [("PrivilegeEscalation", "deny")] } } }
      (resultWith []) webContainer "allow-privilege-escalation" = (false, "") :=
  override_not_suppressed _ (resultWith []) webContainer "allow-privilege-escalation"
    (by decide) (by decide)
    (Or.inr (Or.inr (Or.inr ⟨_, _, rfl, rfl, by decide⟩)))

/-- C5: the capability override is defined exactly when the container-level or the
pod-level label `allow-capability-<k>` is non-empty, `k` being the capability name with
underscores replaced by hyphens; the function reads no global configuration, and when
none is supplied it agrees with the suppressed flag of the container resolver. -/
theorem isDefinedCapOverrideLabel_iff (w : World) (result : Result) (container : ContainerV1)
    (capName : String) (hnone : w.rootConfig.auditConfig = "") :
    (isDefinedCapOverrideLabel result container capName = true ↔
      (result.Labels.get ("container.audit.kubernetes.io/" ++ container.Name
          ++ "/allow-capability-" ++ replaceUnderscores capName) ≠ "" ∨
       result.Labels.get ("audit.kubernetes.io/pod/allow-capability-"
          ++ replaceUnderscores capName) ≠ "")) ∧
    isDefinedCapOverrideLabel result container capName
      = (getContainerOverrideLabelReason w result container
          ("allow-capability-" ++ replaceUnderscores capName)).1 := by
  have hpodkey : "audit.kubernetes.io/pod/" ++ ("allow-capability-" ++ replaceUnderscores capName)
      = "audit.kubernetes.io/pod/allow-capability-" ++ replaceUnderscores capName := by
    rw [← String.append_assoc]; rfl
  constructor
  · simp only [isDefinedCapOverrideLabel]
    split_ifs with h
    · simp [h]
    · simp [h]
  · simp only [isDefinedCapOverrideLabel, getContainerOverrideLabelReason,
      getPodOverrideLabelReason, containerKey_assoc, hpodkey, hnone]
    split_ifs with h1 h2 <;> simp_all

/-- Witness of C5: the pod-level label of `NET_ADMIN` is set, no configuration. -/
theorem isDefinedCapOverrideLabel_iff_witness :
    isDefinedCapOverrideLabel
      (resultWith [("audit.kubernetes.io/pod/allow-capability-NET-ADMIN", "needed")])
      webContainer "NET_ADMIN" = true ∧
    isDefinedCapOverrideLabel
      (resultWith [("audit.kubernetes.io/pod/allow-capability-NET-ADMIN", "needed")])
      webContainer "NET_ADMIN"
      = (getContainerOverrideLabelReason worldNoConfig
          (resultWith [("audit.kubernetes.io/pod/allow-capability-NET-ADMIN", "needed")])
          webContainer ("allow-capability-" ++ replaceUnderscores "NET_ADMIN")).1 :=
  ⟨by decide,
   (isDefinedCapOverrideLabel_iff worldNoConfig
      (resultWith [("audit.kubernetes.io/pod/allow-capability-NET-ADMIN", "needed")])
      webContainer "NET_ADMIN" rfl).2⟩

/-! ## Non-root decision: theorem -/

/-- C10: `shouldAuditCSC` is true exactly when the container has a security context with
`RunAsNonRoot` set, or the pod has no security context, or one with `RunAsNonRoot` unset;
it is false exactly when the pod sets `RunAsNonRoot` and the container does not. -/
theorem shouldAuditCSC_iff (podSpec : PodSpecV1) (container : ContainerV1) :
    (shouldAuditCSC podSpec container = true ↔
      ((∃ sc, container.SecurityContext = some sc ∧ sc.RunAsNonRoot ≠ none) ∨
       podSpec.SecurityContext = none ∨
       (∃ psc, podSpec.SecurityContext = some psc ∧ psc.RunAsNonRoot = none))) ∧
    (shouldAuditCSC podSpec container = false ↔
      ((∃ psc, podSpec.SecurityContext = some psc ∧ psc.RunAsNonRoot ≠ none) ∧
       ¬ (∃ sc, container.SecurityContext = some sc ∧ sc.RunAsNonRoot ≠ none))) := by
  obtain ⟨sa, dsa, tok, psc⟩ := podSpec
  obtain ⟨name, csc⟩ := container
  rcases csc with _ | ⟨_ | c⟩ <;> rcases psc with _ | ⟨_ | p⟩ <;>
    simp [shouldAuditCSC]

/-! ## Normalisation: theorems -/

/-- Normalisation of a handled variant whose pod template is present (every handled
resource but a replication controller with a nil template): a result is returned with
both error values nil; its name and namespace are the source object's, and its
`KubeType` is the string of the kind table. -/
theorem newResultFromResource_handled (sup : Resource → Bool) (resource : Resource)
    (hhandled : resource.isHandled = true) (htemplate : resource.templatePresent = true) :
    ∃ result om kind,
      newResultFromResource sup resource = .ok (some result, none, none) ∧
      resource.objectMeta = some om ∧ resource.kindString = some kind ∧
      result.Name = om.Name ∧ result.Namespace = om.Namespace ∧ result.KubeType = kind := by
  cases resource with
  | ReplicationControllerV1 r =>
    obtain ⟨om, ⟨t⟩⟩ := r
    cases t with
    | none => simp [Resource.templatePresent] at htemplate
    | some t => exact ⟨_, _, _, rfl, rfl, rfl, rfl, rfl, rfl⟩
  | Unhandled gvk => simp [Resource.isHandled, Resource.objectMeta] at hhandled
  | _ => exact ⟨_, _, _, rfl, rfl, rfl, rfl, rfl, rfl⟩

/-- C6, failing input: a replication controller is a handled variant, yet when its
`Spec.Template` is nil the read `kubeType.Spec.Template.Labels` panics and no result
is returned. -/
theorem newResultFromResource_nil_template (sup : Resource → Bool) :
    rcWithoutTemplate.isHandled = true ∧
    rcWithoutTemplate.kindString = some "replicationController" ∧
    newResultFromResource sup rcWithoutTemplate = .error nilDereference :=
  ⟨rfl, rfl, rfl⟩

/-- C7 as stated fails: for an unhandled object that the registry reports as supported,
the second return value (the fatal error) is nil and the third (the warning) is set;
for one the registry does not support, the second is set and the third is nil. -/
theorem newResultFromResource_unhandled_counterexample :
    sampleJob.isHandled = false ∧
    newResultFromResource (fun _ => true) sampleJob
      = .ok (none, none, some "resource type batch/v1, Kind=Job not supported") ∧
    (¬ ∃ result err, newResultFromResource (fun _ => true) sampleJob
        = .ok (result, some err, none)) ∧
    newResultFromResource (fun _ => false) sampleJob
      = .ok (none, some "resource type batch/v1, Kind=Job not supported", none) ∧
    (¬ ∃ result warn, newResultFromResource (fun _ => false) sampleJob
        = .ok (result, none, some warn)) := by
  refine ⟨rfl, rfl, ?_, rfl, ?_⟩
  · rintro ⟨result, err, h⟩
    have h2 : newResultFromResource (fun _ => true) sampleJob
        = .ok (none, none, some "resource type batch/v1, Kind=Job not supported") := rfl
    rw [h2] at h
    cases h
  · rintro ⟨result, warn, h⟩
    have h2 : newResultFromResource (fun _ => false) sampleJob
        = .ok (none, some "resource type batch/v1, Kind=Job not supported", none) := rfl
    rw [h2] at h
    cases h

/-- C7, amended: for a resource that matches none of the handled variants the result is
nil and exactly one signal is set, carrying the message "resource type ... not
supported": when the registry reports it as supported the warning (third value) is set
and the fatal error (second value) is nil; when the registry reports it as not supported
the fatal error is set and the warning is nil. -/
theorem newResultFromResource_unhandled (sup : Resource → Bool) (resource : Resource)
    (hunhandled : resource.isHandled = false) :
    ∃ msg,
      (sup resource = true →
        newResultFromResource sup resource = .ok (none, none, some msg)) ∧
      (sup resource = false →
        newResultFromResource sup resource = .ok (none, some msg, none)) := by
  cases resource with
  | Unhandled gvk =>
    refine ⟨notSupported gvk, ?_, ?_⟩
    · intro h; simp [newResultFromResource, h]
    · intro h; simp [newResultFromResource, h]
  | _ => simp [Resource.isHandled, Resource.objectMeta] at hunhandled

/-- Witness of C7, amended: a batch job, reported as supported by the registry, yields
a warning and no fatal error. -/
theorem newResultFromResource_unhandled_witness :
    sampleJob.isHandled = false ∧
    ∃ msg, newResultFromResource (fun _ => true) sampleJob = .ok (none, none, some msg) :=
  ⟨rfl, (newResultFromResource_unhandled (fun _ => true) sampleJob rfl).imp
    (fun _ h => h.1 rfl)⟩

/-- C8: for every namespace the second-stage normalisation returns a result whose
`Token` is set and holds `false`. -/
theorem namespace_token_false (sup : Resource → Bool) (ns : Namespace) :
    ∃ result,
      newResultFromResourceWithServiceAccountInfo sup (.NamespaceV1 ns)
        = .ok (some result, none, none) ∧
      result.Token = some false ∧ result.Token ≠ none ∧ result.Token ≠ some true :=
  ⟨_, rfl, rfl, by simp [newFalse], by simp [newFalse]⟩

/-- Second-stage normalisation of a workload whose pod template is present: the
service-account fields are those of the pod specification, the identity fields and
labels are those of the first stage. -/
theorem withServiceAccountInfo_workload (sup : Resource → Bool) (resource : Resource)
    (hworkload : resource.isWorkload = true) (htemplate : resource.templatePresent = true) :
    ∃ result base spec,
      newResultFromResourceWithServiceAccountInfo sup resource
        = .ok (some result, none, none) ∧
      newResultFromResource sup resource = .ok (some base, none, none) ∧
      resource.podSpec = some spec ∧
      result.SA = spec.ServiceAccountName ∧ result.DSA = spec.DeprecatedServiceAccount ∧
      result.Token = spec.AutomountServiceAccountToken ∧
      result.KubeType = base.KubeType ∧ result.Name = base.Name ∧
      result.Namespace = base.Namespace ∧ result.Labels = base.Labels := by
  cases resource with
  | ReplicationControllerV1 r =>
    obtain ⟨om, ⟨t⟩⟩ := r
    cases t with
    | none => simp [Resource.templatePresent] at htemplate
    | some t => exact ⟨_, _, _, rfl, rfl, rfl, rfl, rfl, rfl, rfl, rfl, rfl, rfl⟩
  | Unhandled gvk => simp [Resource.isWorkload] at hworkload
  | NamespaceV1 ns => simp [Resource.isWorkload] at hworkload
  | _ => exact ⟨_, _, _, rfl, rfl, rfl, rfl, rfl, rfl, rfl, rfl, rfl, rfl⟩

/-- C9, failing input: a replication controller is one of the twelve workload variants,
yet when its `Spec.Template` is nil the second-stage normalisation panics (inside the
first stage) and returns no result. -/
theorem withServiceAccountInfo_nil_template (sup : Resource → Bool) :
    rcWithoutTemplate.isWorkload = true ∧
    newResultFromResourceWithServiceAccountInfo sup rcWithoutTemplate
      = .error nilDereference :=
  ⟨rfl, rfl⟩

/-! ## Reason rendering: theorems -/

theorem toLower_eq_t (c : Char) : c.toLower = 't' ↔ c = 't' ∨ c = 'T' := by
  by_cases h : 65 ≤ c.toNat ∧ c.toNat ≤ 90
  · obtain ⟨h1, h2⟩ := h
    rw [← Char.ofNat_toNat c]
    generalize c.toNat = n at h1 h2
    interval_cases n <;> decide
  · have hc : c.toLower = c := by simp only [Char.toLower]; rw [if_neg (by simpa using h)]
    rw [hc]
    constructor
    · exact Or.inl
    · rintro (h' | h')
      · exact h'
      · subst h'; exact absurd (by decide) h


theorem toLower_eq_r (c : Char) : c.toLower = 'r' ↔ c = 'r' ∨ c = 'R' := by
  by_cases h : 65 ≤ c.toNat ∧ c.toNat ≤ 90
  · obtain ⟨h1, h2⟩ := h
    rw [← Char.ofNat_toNat c]
    generalize c.toNat = n at h1 h2
    interval_cases n <;> decide
  · have hc : c.toLower = c := by simp only [Char.toLower]; rw [if_neg (by simpa using h)]
    rw [hc]
    constructor
    · exact Or.inl
    · rintro (h' | h')
      · exact h'
      · subst h'; exact absurd (by decide) h

theorem toLower_eq_u (c : Char) : c.toLower = 'u' ↔ c = 'u' ∨ c = 'U' := by
  by_cases h : 65 ≤ c.toNat ∧ c.toNat ≤ 90
  · obtain ⟨h1, h2⟩ := h
    rw [← Char.ofNat_toNat c]
    generalize c.toNat = n at h1 h2
    interval_cases n <;> decide
  · have hc : c.toLower = c := by simp only [Char.toLower]; rw [if_neg (by simpa using h)]
    rw [hc]
    constructor
    · exact Or.inl
    · rintro (h' | h')
      · exact h'
      · subst h'; exact absurd (by decide) h

theorem toLower_eq_e (c : Char) : c.toLower = 'e' ↔ c = 'e' ∨ c = 'E' := by
  by_cases h : 65 ≤ c.toNat ∧ c.toNat ≤ 90
  · obtain ⟨h1, h2⟩ := h
    rw [← Char.ofNat_toNat c]
    generalize c.toNat = n at h1 h2
    interval_cases n <;> decide
  · have hc : c.toLower = c := by simp only [Char.toLower]; rw [if_neg (by simpa using h)]
    rw [hc]
    constructor
    · exact Or.inl
    · rintro (h' | h')
      · exact h'
      · subst h'; exact absurd (by decide) h


theorem toLowerRune_eq_iff (table : Char → Char) (c l u : Char)
    (hl : l.toNat < 128) (hu : u.toNat < 128)
    (hlower : ∀ d : Char, d.toLower = l ↔ d = l ∨ d = u)
    (htable : ∀ d : Char, 128 ≤ d.toNat → table d ≠ l) :
    toLowerRune table c = l ↔ c = l ∨ c = u := by
  unfold toLowerRune
  by_cases h : c.toNat < 128
  · rw [if_pos h]; exact hlower c
  · rw [if_neg h]
    constructor
    · intro ht; exact absurd ht (htable c (by omega))
    · rintro (h' | h')
      · subst h'; exact absurd hl h
      · subst h'; exact absurd hu h

theorem stringsToLower_eq_true_iff (table : Char → Char) (htable : TableAvoidsTrue table)
    (r : String) : stringsToLower table r = "true" ↔ isTrueAnyCase r = true := by
  have ht := fun c => toLowerRune_eq_iff table c 't' 'T' (by decide) (by decide)
    toLower_eq_t (fun d hd => (htable d hd).1)
  have hr := fun c => toLowerRune_eq_iff table c 'r' 'R' (by decide) (by decide)
    toLower_eq_r (fun d hd => (htable d hd).2.1)
  have hu := fun c => toLowerRune_eq_iff table c 'u' 'U' (by decide) (by decide)
    toLower_eq_u (fun d hd => (htable d hd).2.2.1)
  have he := fun c => toLowerRune_eq_iff table c 'e' 'E' (by decide) (by decide)
    toLower_eq_e (fun d hd => (htable d hd).2.2.2)
  have hlit : ("true" : String) = String.mk ['t', 'r', 'u', 'e'] := rfl
  obtain ⟨l⟩ := r
  unfold stringsToLower isTrueAnyCase
  rw [hlit, String.ext_iff]
  match l with
  | [] => simp
  | [_] => simp
  | [_, _] => simp
  | [_, _, _] => simp
  | [a, b, c, d] => simp [ht, hr, hu, he, and_assoc]
  | _ :: _ :: _ :: _ :: _ :: _ => simp

/-- C11: `prettifyReason r` is `"Unspecified"` when `r` is the word "true" in any mix
of upper and lower case, and `r` itself for every other string. -/
theorem prettifyReason_spec (table : Char → Char) (htable : TableAvoidsTrue table)
    (r : String) :
    prettifyReason table r = if isTrueAnyCase r = true then "Unspecified" else r := by
  unfold prettifyReason
  by_cases h : isTrueAnyCase r = true
  · rw [if_pos h, if_pos ((stringsToLower_eq_true_iff table htable r).2 h)]
  · rw [if_neg h, if_neg (fun h' => h ((stringsToLower_eq_true_iff table htable r).1 h'))]

theorem sampleUnicodeLower_avoids : TableAvoidsTrue sampleUnicodeLower := by
  intro d hd
  unfold sampleUnicodeLower
  split_ifs with h1 h2
  · decide
  · decide
  · refine ⟨?_, ?_, ?_, ?_⟩ <;> (rintro rfl; revert hd; decide)

/-- Witness of C11. -/
theorem prettifyReason_spec_witness :
    prettifyReason sampleUnicodeLower "TrUe" = "Unspecified" ∧
    prettifyReason sampleUnicodeLower "custom reason" = "custom reason" :=
  ⟨prettifyReason_spec sampleUnicodeLower sampleUnicodeLower_avoids "TrUe",
   prettifyReason_spec sampleUnicodeLower sampleUnicodeLower_avoids "custom reason"⟩

/-! ## Capability sets: theorems -/

theorem stringLE_iff_le (a b : String) : stringLE a b ↔ a ≤ b :=
  String.le_iff_toList_le.symm

theorem sortStrings_perm (keys : List String) : (sortStrings keys).Perm keys :=
  List.perm_insertionSort stringLE keys

theorem mem_sortStrings (keys : List String) (c : String) : c ∈ sortStrings keys ↔ c ∈ keys :=
  (sortStrings_perm keys).mem_iff

/-- Sorting a list without duplicates gives a strictly increasing list. -/
theorem sortStrings_strict (keys : List String) (hnodup : keys.Nodup) :
    (sortStrings keys).Sorted (· < ·) := by
  have hsorted : (sortStrings keys).Sorted (· ≤ ·) :=
    (List.sorted_insertionSort stringLE keys).imp (fun h => (stringLE_iff_le _ _).1 h)
  exact hsorted.lt_of_le ((sortStrings_perm keys).nodup_iff.2 hnodup)

/-- Sorting depends only on the members of a list without duplicates. -/
theorem sortStrings_congr (xs ys : List String) (hx : xs.Nodup) (hy : ys.Nodup)
    (hmem : ∀ c, c ∈ xs ↔ c ∈ ys) : sortStrings xs = sortStrings ys := by
  have hperm : xs.Perm ys := (List.perm_ext_iff_of_nodup hx hy).2 hmem
  exact List.eq_of_perm_of_sorted
    (((sortStrings_perm xs).trans hperm).trans (sortStrings_perm ys).symm)
    (List.sorted_insertionSort stringLE xs) (List.sorted_insertionSort stringLE ys)

/-- Copying a list of entries with distinct keys into a map: each key of the list reads
its entry, every other key reads as before. -/
theorem lookup_foldl_insert (l : List (Sigma fun _ : Capability => Bool)) (hl : l.NodupKeys)
    (m : CapSet) (k : Capability) :
    (l.foldl (fun m e => m.insert e.1 e.2) m).lookup k
      = match l.dlookup k with
        | some v => some v
        | none => m.lookup k := by
  induction l generalizing m with
  | nil => rfl
  | cons e l ih =>
    obtain ⟨hnot, hl2⟩ := List.nodupKeys_cons.1 hl
    rw [List.foldl_cons, ih hl2]
    by_cases hk : k = e.1
    · subst hk
      have hnone : l.dlookup e.1 = none := List.dlookup_eq_none.2 hnot
      rw [hnone, List.dlookup_cons_eq]
      exact AList.lookup_insert m
    · rw [List.dlookup_cons_ne _ _ hk, AList.lookup_insert_ne hk]

/-- Reading the copy of `set` into `merged`: the value of `set` where it has the key, the
value of `merged` elsewhere. -/
theorem lookup_copyInto (merged set : CapSet) (k : Capability) :
    (merged.copyInto set).lookup k
      = match set.lookup k with
        | some v => some v
        | none => merged.lookup k :=
  lookup_foldl_insert set.entries set.nodupKeys merged k

/-- The copy does not depend on the order in which the entries are visited. -/
theorem lookup_foldl_insert_perm (set : CapSet) (order : List (Sigma fun _ : Capability => Bool))
    (hperm : order.Perm set.entries) (merged : CapSet) (k : Capability) :
    (order.foldl (fun m e => m.insert e.1 e.2) merged).lookup k
      = (merged.copyInto set).lookup k := by
  have hnodup : order.NodupKeys := (List.perm_nodupKeys hperm).2 set.nodupKeys
  rw [lookup_foldl_insert order hnodup, lookup_copyInto]
  have : order.dlookup k = set.lookup k := List.perm_dlookup k hnodup set.nodupKeys hperm
  rw [this]

theorem lookup_mergeCapSets_pair (a b : CapSet) (k : Capability) :
    (mergeCapSets [a, b]).lookup k
      = match b.lookup k with
        | some v => some v
        | none => a.lookup k := by
  have h1 : mergeCapSets [a, b] = ((∅ : CapSet).copyInto a).copyInto b := rfl
  rw [h1, lookup_copyInto, lookup_copyInto, AList.lookup_empty]
  cases a.lookup k <;> rfl

theorem mem_mergeCapSets_pair (a b : CapSet) (k : Capability) :
    k ∈ mergeCapSets [a, b] ↔ k ∈ a ∨ k ∈ b := by
  rw [← AList.lookup_isSome, ← AList.lookup_isSome, ← AList.lookup_isSome,
    lookup_mergeCapSets_pair]
  cases a.lookup k <;> cases b.lookup k <;> simp

/-- C12 as stated fails: when `a` and `b` store different values under a common key, the
two merges store different values under it (the later argument wins). -/
theorem mergeCapSets_comm_counterexample :
    (mergeCapSets [(∅ : CapSet).insert "KILL" true, (∅ : CapSet).insert "KILL" false]).lookup
        "KILL" = some false ∧
    (mergeCapSets [(∅ : CapSet).insert "KILL" false, (∅ : CapSet).insert "KILL" true]).lookup
        "KILL" = some true ∧
    ¬ CapSet.SameMap
        (mergeCapSets [(∅ : CapSet).insert "KILL" true, (∅ : CapSet).insert "KILL" false])
        (mergeCapSets [(∅ : CapSet).insert "KILL" false, (∅ : CapSet).insert "KILL" true]) := by
  refine ⟨by decide, by decide, fun h => ?_⟩
  have := h "KILL"
  revert this
  decide

/-- C12, amended: `mergeCapSets(a, b)` and `mergeCapSets(b, a)` always have the same keys,
and they are equal as maps whenever `a` and `b` store the same value under every key they
share (as sets built by `NewCapSetFromArray` do). -/
theorem mergeCapSets_comm (a b : CapSet) :
    (∀ k, k ∈ mergeCapSets [a, b] ↔ k ∈ mergeCapSets [b, a]) ∧
    ((∀ k x y, a.lookup k = some x → b.lookup k = some y → x = y) →
      CapSet.SameMap (mergeCapSets [a, b]) (mergeCapSets [b, a])) := by
  constructor
  · intro k
    rw [mem_mergeCapSets_pair, mem_mergeCapSets_pair, or_comm]
  · intro hagree k
    rw [lookup_mergeCapSets_pair, lookup_mergeCapSets_pair]
    cases ha : a.lookup k with
    | none => cases b.lookup k <;> rfl
    | some x =>
      cases hb : b.lookup k with
      | none => rfl
      | some y => rw [hagree k x y ha hb]

/-- Witness of C12, amended: two sets built from arrays that share the key `KILL`. -/
theorem mergeCapSets_comm_witness :
    CapSet.SameMap
      (mergeCapSets [NewCapSetFromArray ["KILL", "CHOWN"], NewCapSetFromArray ["KILL"]])
      (mergeCapSets [NewCapSetFromArray ["KILL"], NewCapSetFromArray ["KILL", "CHOWN"]]) :=
  (mergeCapSets_comm (NewCapSetFromArray ["KILL", "CHOWN"]) (NewCapSetFromArray ["KILL"])).2
    (by
      intro k x y hx hy
      by_cases hk : k = "KILL"
      · subst hk
        have h1 : (NewCapSetFromArray ["KILL", "CHOWN"]).lookup "KILL" = some true := by decide
        have h2 : (NewCapSetFromArray ["KILL"]).lookup "KILL" = some true := by decide
        rw [h1] at hx; rw [h2] at hy
        exact (Option.some.inj hx).symm.trans (Option.some.inj hy)
      · have h2 : (NewCapSetFromArray ["KILL"]).lookup k = none := by
          have : NewCapSetFromArray ["KILL"] = (∅ : CapSet).insert "KILL" true := rfl
          rw [this, AList.lookup_insert_ne hk, AList.lookup_empty]
        rw [h2] at hy
        exact absurd hy (by simp))

theorem lookup_mergeCapSets_single (a : CapSet) (k : Capability) :
    (mergeCapSets [a]).lookup k = a.lookup k := by
  have h1 : mergeCapSets [a] = (∅ : CapSet).copyInto a := rfl
  rw [h1, lookup_copyInto, AList.lookup_empty]
  cases a.lookup k <;> rfl

/-- C13: `mergeCapSets(a, a)` equals `a` as a map, and merging `a` with itself any number
of times (one copy or more) equals `mergeCapSets(a)`. -/
theorem mergeCapSets_idem (a : CapSet) :
    CapSet.SameMap (mergeCapSets [a, a]) a ∧
    ∀ n, CapSet.SameMap (mergeCapSets (List.replicate (n + 1) a)) (mergeCapSets [a]) := by
  constructor
  · intro k
    rw [lookup_mergeCapSets_pair]
    cases a.lookup k <;> rfl
  · intro n k
    rw [lookup_mergeCapSets_single]
    have hstep : mergeCapSets (List.replicate (n + 1) a)
        = (List.replicate n a).foldl CapSet.copyInto ((∅ : CapSet).copyInto a) := by
      rw [mergeCapSets, List.replicate_succ, List.foldl_cons]
    have hfirst : ∀ k, ((∅ : CapSet).copyInto a).lookup k = a.lookup k := fun k => by
      rw [lookup_copyInto, AList.lookup_empty]; cases a.lookup k <;> rfl
    rw [hstep]
    clear hstep
    induction n generalizing k with
    | zero => exact hfirst k
    | succ n ih =>
      rw [List.replicate_succ', List.foldl_append, List.foldl_cons, List.foldl_nil,
        lookup_copyInto]
      cases ha : a.lookup k with
      | none => rw [ih k, ha]
      | some v => rfl

/-- C14: `sortCapSet(mergeCapSets(a, b))` is strictly increasing in the lexicographic
order of strings, so it has no duplicates, and a capability occurs in it exactly when it
is a key of `a` or a key of `b`. -/
theorem sortCapSet_mergeCapSets (a b : CapSet) :
    (sortCapSet (mergeCapSets [a, b])).Sorted (· < ·) ∧
    (sortCapSet (mergeCapSets [a, b])).Nodup ∧
    ∀ c, c ∈ sortCapSet (mergeCapSets [a, b]) ↔ c ∈ a ∨ c ∈ b := by
  have hstrict := sortStrings_strict (mergeCapSets [a, b]).keys (mergeCapSets [a, b]).keys_nodup
  refine ⟨hstrict, ?_, ?_⟩
  · exact (sortStrings_perm _).nodup_iff.2 (mergeCapSets [a, b]).keys_nodup
  · intro c
    rw [sortCapSet, mem_sortStrings, ← AList.mem_keys, mem_mergeCapSets_pair]

theorem mem_foldl_insert_true (xs : List Capability) (m : CapSet) (c : Capability) :
    c ∈ xs.foldl (fun set cap => set.insert cap true) m ↔ c ∈ m ∨ c ∈ xs := by
  induction xs generalizing m with
  | nil => simp
  | cons x xs ih =>
    rw [List.foldl_cons, ih, AList.mem_insert, List.mem_cons]
    tauto

theorem lookup_foldl_insert_true (xs : List Capability) (m : CapSet)
    (hm : ∀ c v, m.lookup c = some v → v = true) :
    ∀ c v, (xs.foldl (fun set cap => set.insert cap true) m).lookup c = some v → v = true := by
  induction xs generalizing m with
  | nil => exact hm
  | cons x xs ih =>
    rw [List.foldl_cons]
    apply ih
    intro c v hv
    by_cases hc : c = x
    · subst hc
      rw [AList.lookup_insert] at hv
      exact (Option.some.inj hv).symm
    · rw [AList.lookup_insert_ne hc] at hv
      exact hm c v hv

theorem mem_NewCapSetFromArray (xs : List Capability) (c : Capability) :
    c ∈ NewCapSetFromArray xs ↔ c ∈ xs := by
  rw [NewCapSetFromArray, mem_foldl_insert_true]
  simp

/-- C15: `NewCapSetFromArray(xs)` has the key `c` exactly when `c` occurs in `xs`, every
key maps to `true`, and `sortCapSet` of it is the sorted list of the distinct elements of
`xs`: it is the same for any list with the same elements, whatever their order and
however often each is repeated. -/
theorem NewCapSetFromArray_spec (xs : List Capability) :
    (∀ c, c ∈ NewCapSetFromArray xs ↔ c ∈ xs) ∧
    (∀ c v, (NewCapSetFromArray xs).lookup c = some v → v = true) ∧
    sortCapSet (NewCapSetFromArray xs) = sortStrings xs.dedup ∧
    (sortCapSet (NewCapSetFromArray xs)).Sorted (· < ·) ∧
    (∀ ys : List Capability, (∀ c, c ∈ xs ↔ c ∈ ys) →
      sortCapSet (NewCapSetFromArray xs) = sortCapSet (NewCapSetFromArray ys)) := by
  refine ⟨mem_NewCapSetFromArray xs, ?_, ?_, ?_, ?_⟩
  · exact lookup_foldl_insert_true xs ∅ (fun c v h => by simp at h)
  · apply sortStrings_congr _ _ (NewCapSetFromArray xs).keys_nodup (List.nodup_dedup xs)
    intro c
    rw [← AList.mem_keys, mem_NewCapSetFromArray, List.mem_dedup]
  · exact sortStrings_strict _ (NewCapSetFromArray xs).keys_nodup
  · intro ys hmem
    apply sortStrings_congr _ _ (NewCapSetFromArray xs).keys_nodup
      (NewCapSetFromArray ys).keys_nodup
    intro c
    rw [← AList.mem_keys, ← AList.mem_keys, mem_NewCapSetFromArray, mem_NewCapSetFromArray]
    exact hmem c

/-- Witness of C15: a list with a repeated element and a reordering of its elements. -/
theorem NewCapSetFromArray_spec_witness :
    sortCapSet (NewCapSetFromArray ["SYS_ADMIN", "KILL", "CHOWN", "KILL"])
      = sortCapSet (NewCapSetFromArray ["CHOWN", "SYS_ADMIN", "KILL"]) ∧
    sortCapSet (NewCapSetFromArray ["SYS_ADMIN", "KILL", "CHOWN", "KILL"])
      = ["CHOWN", "KILL", "SYS_ADMIN"] :=
  ⟨(NewCapSetFromArray_spec ["SYS_ADMIN", "KILL", "CHOWN", "KILL"]).2.2.2.2
      ["CHOWN", "SYS_ADMIN", "KILL"] (by intro c; simp; tauto),
   by decide⟩

/-! ## Audit dispatch: theorems -/

theorem Dispatch.Inv.exit_eq {g : Resource → List Result} {rs : List Resource} {s : Dispatch}
    (h : Dispatch.Inv g rs s) (o : Outcome) (ho : s.exit = some o) :
    o = .returned (rs.flatMap g) := by
  cases h with
  | start hne => simp [Dispatch.init] at ho
  | inChan pre todo j hrs => simp at ho
  | inWorker pre r todo j hrs => simp at ho
  | closing => simp at ho
  | done => simpa using ho.symm

theorem Dispatch.Inv.of_inChan {g : Resource → List Result} {rs : List Resource}
    (pre todo : List Resource) (j : Nat) (hrs : rs = pre ++ todo) (t : Dispatch)
    (ht : t = { starter := false, chan := some (pre.flatMap g), closed := false,
                todo := todo, workers := [], finishing := j, wg := todo.length + j,
                exit := none }) : Dispatch.Inv g rs t :=
  ht ▸ .inChan pre todo j hrs

theorem Dispatch.Inv.of_inWorker {g : Resource → List Result} {rs : List Resource}
    (pre : List Resource) (r : Resource) (todo : List Resource) (j : Nat)
    (hrs : rs = pre ++ r :: todo) (t : Dispatch)
    (ht : t = { starter := false, chan := none, closed := false, todo := todo,
                workers := [(r, pre.flatMap g)], finishing := j,
                wg := todo.length + 1 + j, exit := none }) : Dispatch.Inv g rs t :=
  ht ▸ .inWorker pre r todo j hrs

/-- A step from a state of the invariant exists, leads to a state of the invariant, and
lowers the measure. -/
theorem Dispatch.Inv.step {g : Resource → List Result} {rs : List Resource} {s : Dispatch}
    (h : Dispatch.Inv g rs s) (hrun : s.exit = none) :
    s.next (fun r => some (g r)) ≠ [] ∧
    ∀ t ∈ s.next (fun r => some (g r)), Dispatch.Inv g rs t ∧ t.measure < s.measure := by
  cases h with
  | start hne =>
    obtain ⟨r, rest, rfl⟩ := List.exists_cons_of_ne_nil hne
    have hnext : (Dispatch.init (r :: rest)).next (fun r => some (g r))
        = [{ starter := false, chan := some ([].flatMap g), closed := false,
             todo := r :: rest, workers := [], finishing := 0,
             wg := (r :: rest).length + 0, exit := none }] := by
      simp [Dispatch.next, Dispatch.init, Dispatch.starterStep, Dispatch.mainStep,
        Dispatch.doneStep]
    rw [hnext]
    refine ⟨by simp, ?_⟩
    intro t ht
    rw [List.mem_singleton] at ht
    subst ht
    exact ⟨.inChan [] (r :: rest) 0 rfl, by simp [Dispatch.measure, Dispatch.init]⟩
  | inChan pre todo j hrs =>
    cases todo with
    | nil =>
      cases j with
      | zero =>
        have hpre : pre = rs := by simpa using hrs.symm
        subst hpre
        refine ⟨by simp [Dispatch.next, Dispatch.starterStep, Dispatch.mainStep,
          Dispatch.doneStep], ?_⟩
        intro t ht
        simp [Dispatch.next, Dispatch.starterStep, Dispatch.mainStep,
          Dispatch.doneStep] at ht
        subst ht
        exact ⟨.closing, by simp [Dispatch.measure]; try omega⟩
      | succ j =>
        refine ⟨by simp [Dispatch.next, Dispatch.starterStep, Dispatch.mainStep,
          Dispatch.doneStep], ?_⟩
        intro t ht
        simp [Dispatch.next, Dispatch.starterStep, Dispatch.mainStep,
          Dispatch.doneStep] at ht
        subst ht
        exact ⟨.of_inChan pre [] j hrs _ (by simp), by simp [Dispatch.measure]; try omega⟩
    | cons r rest =>
      refine ⟨by simp [Dispatch.next, Dispatch.starterStep, Dispatch.mainStep], ?_⟩
      intro t ht
      simp [Dispatch.next, Dispatch.starterStep, Dispatch.mainStep,
        Dispatch.doneStep] at ht
      rcases ht with ht | ⟨hj, ht⟩
      · subst ht
        exact ⟨.of_inWorker pre r rest j hrs _ (by simp; try omega),
          by simp [Dispatch.measure]; try omega⟩
      · subst ht
        refine ⟨.of_inChan pre (r :: rest) (j - 1) hrs _ (by simp; try omega), ?_⟩
        simp [Dispatch.measure]; try omega
  | inWorker pre r todo j hrs =>
    have hmain : Dispatch.mainStep
        { starter := false, chan := none, closed := false, todo := todo,
          workers := [(r, pre.flatMap g)], finishing := j, wg := todo.length + 1 + j,
          exit := none } = [] := by
      cases todo <;> simp [Dispatch.mainStep]
    refine ⟨by simp [Dispatch.next, Dispatch.starterStep, hmain, Dispatch.workerStep], ?_⟩
    intro t ht
    simp [Dispatch.next, Dispatch.starterStep, hmain, Dispatch.workerStep,
      Dispatch.doneStep] at ht
    rcases ht with ht | ⟨hj, ht⟩
    · subst ht
      refine ⟨.of_inChan (pre ++ [r]) todo (j + 1) (by simp [hrs]) _
        (by simp [List.flatMap_append]; try omega), ?_⟩
      simp [Dispatch.measure]; try omega
    · subst ht
      refine ⟨.of_inWorker pre r todo (j - 1) hrs _ (by simp; try omega), ?_⟩
      simp [Dispatch.measure]; try omega
  | closing =>
    refine ⟨by simp [Dispatch.next, Dispatch.starterStep, Dispatch.mainStep,
      Dispatch.doneStep], ?_⟩
    intro t ht
    simp [Dispatch.next, Dispatch.starterStep, Dispatch.mainStep, Dispatch.doneStep] at ht
    subst ht
    exact ⟨.done, by simp [Dispatch.measure]; try omega⟩
  | done => simp at hrun

theorem get?_mod_length {α : Type} (l : List α) (k : Nat) (hl : l ≠ []) :
    ∃ t, l.get? (k % l.length) = some t ∧ t ∈ l := by
  have hlt : k % l.length < l.length := Nat.mod_lt _ (List.length_pos.2 hl)
  exact ⟨l.get ⟨_, hlt⟩, List.get?_eq_get hlt, List.get_mem _ _ _⟩

/-- Every schedule leads a state of the invariant to the return of all results, in the
order of the resources, within the number of steps given by the measure. -/
theorem Dispatch.run_of_inv {g : Resource → List Result} {rs : List Resource} :
    ∀ (fuel : Nat) (sched : List Nat) (s : Dispatch), Dispatch.Inv g rs s →
      s.measure ≤ fuel →
      Dispatch.run (fun r => some (g r)) fuel sched s = .returned (rs.flatMap g) := by
  intro fuel
  induction fuel with
  | zero =>
    intro sched s hinv hm
    cases hexit : s.exit with
    | none =>
      have : 0 < s.measure := by
        simp only [Dispatch.measure, hexit]
        split_ifs <;> omega
      omega
    | some o =>
      rw [Dispatch.run, hexit]
      exact hinv.exit_eq o hexit
  | succ fuel ih =>
    intro sched s hinv hm
    cases hexit : s.exit with
    | some o =>
      rw [Dispatch.run]
      simp only [hexit]
      exact hinv.exit_eq o hexit
    | none =>
      obtain ⟨hne, hstep⟩ := hinv.step hexit
      obtain ⟨t, hget, hmem⟩ := get?_mod_length _ (sched.headD 0) hne
      obtain ⟨hinvt, hlt⟩ := hstep t hmem
      rw [Dispatch.run]
      simp only [hexit, hget]
      exact ih sched.tail t hinvt (by omega)

/-- Dispatch of a rule that answers on every resource, over a non-empty list: under
every schedule the call returns the results of the resources in input order. -/
theorem getResults_of_call (cfg : DispatchConfig) (sched : List Nat) (rs : List Resource)
    (auditFunc : AuditFunc) (g : Resource → List Result)
    (hcall : auditFunc.call cfg = fun r => some (g r)) (hne : rs ≠ []) :
    getResults cfg sched rs auditFunc = .returned (rs.flatMap g) := by
  rw [getResults, hcall]
  apply Dispatch.run_of_inv _ _ _ (.start hne)
  simp [Dispatch.measure, Dispatch.init]
  omega

/-- C16: for a non-empty list of resources and a target-only rule, under every schedule
`getResults` returns a permutation of the concatenation of the per-resource results; its
length is the sum of their lengths. -/
theorem getResults_perm (cfg : DispatchConfig) (sched : List Nat) (rs : List Resource)
    (f : Resource → List Result) (hne : rs ≠ []) :
    ∃ out, getResults cfg sched rs (.target f) = .returned out ∧
      out.Perm (rs.flatMap f) ∧
      out.length = (rs.map (fun r => (f r).length)).sum ∧
      ∀ x, out.count x = (rs.map (fun r => (f r).count x)).sum := by
  refine ⟨rs.flatMap f, getResults_of_call cfg sched rs (.target f) f rfl hne,
    List.Perm.refl _, ?_, ?_⟩
  · rw [List.length_flatMap]; rfl
  · intro x
    rw [List.count_flatMap]; rfl

/-- Witness of C16: three resources under a schedule that prefers the later goroutines. -/
theorem getResults_perm_witness :
    ∃ out, getResults sampleConfig [1, 0, 1, 1, 1, 1, 0, 1, 1]
        [sampleDeployment, sampleJob, sampleDeployment] (.target sampleRule) = .returned out ∧
      out.Perm ([sampleDeployment, sampleJob, sampleDeployment].flatMap sampleRule) ∧
      out.length = 2 :=
  (getResults_perm sampleConfig [1, 0, 1, 1, 1, 1, 0, 1, 1]
    [sampleDeployment, sampleJob, sampleDeployment] sampleRule (by simp)).imp
    (fun _ h => ⟨h.1, h.2.1, h.2.2.1.trans (by decide)⟩)

/-- C20: for a non-empty list of resources and a target-only rule, `getResults` is
deterministic and keeps the input order: under every schedule of the goroutines it
returns `f(r1) ++ f(r2) ++ ... ++ f(rn)`. -/
theorem getResults_deterministic (cfg : DispatchConfig) (sched : List Nat)
    (rs : List Resource) (f : Resource → List Result) (hne : rs ≠ []) :
    getResults cfg sched rs (.target f) = .returned (rs.flatMap f) :=
  getResults_of_call cfg sched rs (.target f) f rfl hne

/-- Witness of C20. -/
theorem getResults_deterministic_witness :
    getResults sampleConfig [1, 0, 1, 1, 1, 1, 0, 1, 1]
        [sampleDeployment, sampleJob, sampleDeployment] (.target sampleRule)
      = .returned (sampleRule sampleDeployment ++ sampleRule sampleJob
          ++ sampleRule sampleDeployment) :=
  (getResults_deterministic sampleConfig [1, 0, 1, 1, 1, 1, 0, 1, 1]
    [sampleDeployment, sampleJob, sampleDeployment] sampleRule (by simp)).trans (by decide)

/-- With no resource the call races with its first goroutine: one schedule returns the
empty collection, another panics on the closed channel. -/
theorem getResults_empty_race :
    getResults sampleConfig [1, 1] [] (.target sampleRule) = .returned [] ∧
    getResults sampleConfig [1, 0] [] (.target sampleRule)
      = .panic "send on closed channel" := by
  constructor <;> decide

theorem mergeAuditFunctionsLoop_target (cfg : DispatchConfig) (resource : Resource)
    (fs : List (Resource → List Result)) :
    ∀ (scheds : List (List Nat)) (results : List Result),
      mergeAuditFunctionsLoop cfg resource scheds (fs.map AuditFunc.target) results
        = .returned (results ++ fs.flatMap (fun f => f resource)) := by
  induction fs with
  | nil => intro scheds results; simp [mergeAuditFunctionsLoop]
  | cons f fs ih =>
    intro scheds results
    have hcall : getResults cfg (scheds.headD []) [resource] (.target f)
        = .returned (f resource) := by
      have := getResults_of_call cfg (scheds.headD []) [resource] (.target f) f rfl (by simp)
      simpa using this
    rw [List.map_cons, mergeAuditFunctionsLoop]
    simp only [hcall]
    rw [ih, List.flatMap_cons, List.append_assoc]

/-- C17: for target-only rules `f1, ..., fn` and a resource `r`, under every schedule of
every dispatch, `mergeAuditFunctions([f1, ..., fn])(r)` returns
`f1(r) ++ f2(r) ++ ... ++ fn(r)`; for the empty list the result is empty. -/
theorem mergeAuditFunctions_concat (cfg : DispatchConfig) (scheds : List (List Nat))
    (fs : List (Resource → List Result)) (resource : Resource) :
    mergeAuditFunctions cfg scheds (fs.map AuditFunc.target) resource
      = .returned (fs.flatMap (fun f => f resource)) ∧
    mergeAuditFunctions cfg scheds [] resource = .returned [] := by
  constructor
  · rw [mergeAuditFunctions, mergeAuditFunctionsLoop_target]; rfl
  · rfl

/-! ## Manifest reading and the audit run: theorems -/

theorem utf8ByteSize_eq_zero (s : String) : s.utf8ByteSize = 0 ↔ s = "" := by
  obtain ⟨l⟩ := s
  cases l with
  | nil => simp [String.utf8ByteSize, String.utf8ByteSize.go]
  | cons c cs =>
    have hc : 0 < c.utf8Size := Char.utf8Size_pos c
    constructor
    · intro h
      simp [String.utf8ByteSize, String.utf8ByteSize.go] at h
      omega
    · intro h
      exact absurd (congrArg String.data h) (by simp)

/-- Parameter check: an image-aware rule with an empty image name, or with an empty tag
after the split, gives an error; a target-only or limit-aware rule gives none. -/
theorem checkParams_spec (splitImageString : ImgFlags → ImgFlags) (imgConfig : ImgFlags) :
    (∀ f, imgConfig.img = "" →
      (checkParams splitImageString imgConfig (.image f)).1
        = some "Empty image name. Are you missing the image flag?") ∧
    (∀ f, imgConfig.img ≠ "" → (splitImageString imgConfig).tag = "" →
      (checkParams splitImageString imgConfig (.image f)).1
        = some "Empty image tag. Are you missing the image tag?") ∧
    (∀ f, (checkParams splitImageString imgConfig (.target f)).1 = none) ∧
    (∀ f, (checkParams splitImageString imgConfig (.limits f)).1 = none) := by
  refine ⟨?_, ?_, fun _ => rfl, fun _ => rfl⟩
  · intro f h
    simp [checkParams, (utf8ByteSize_eq_zero _).2 h]
  · intro f h1 h2
    have h1' : ¬ imgConfig.img.utf8ByteSize = 0 := fun h => h1 ((utf8ByteSize_eq_zero _).1 h)
    simp [checkParams, h1', (utf8ByteSize_eq_zero _).2 h2]

/-- C18, failing input: an image-aware rule with no image configured.  The parameter check
returns its error, yet the run goes on: the resources are fetched, the rule is dispatched
over them and its result is printed, under every schedule. -/
theorem runAudit_continues_after_failed_check (sched : List Nat) :
    (checkParams sampleSplit auditEnvNoImage.imgConfig (.image sampleImageRule)).1
      = some "Empty image name. Are you missing the image flag?" ∧
    runAudit { auditEnvNoImage with sched := sched } (.image sampleImageRule)
      = [.logError "Parameter check failed",
         .logError "Empty image name. Are you missing the image flag?",
         .setFormatter, .getResources, .getResults [sampleDeployment]]
        ++ (sampleRule sampleDeployment).map Event.print ∧
    (sampleRule sampleDeployment).length = 1 := by
  refine ⟨by decide, ?_, by decide⟩
  have hres : getResults
      { imgConfig := { img := "", name := "", tag := "" },
        limitConfig := { cpuArg := "", memoryArg := "" } } sched [sampleDeployment]
      (.image sampleImageRule) = .returned (sampleRule sampleDeployment) := by
    have := getResults_of_call
      { imgConfig := { img := "", name := "", tag := "" },
        limitConfig := { cpuArg := "", memoryArg := "" } } sched [sampleDeployment]
      (.image sampleImageRule) sampleRule rfl (by simp)
    simpa using this
  have hcheck : checkParams sampleSplit { img := "", name := "", tag := "" }
      (.image sampleImageRule)
      = (some "Empty image name. Are you missing the image flag?",
         { img := "", name := "", tag := "" }) := by decide
  simp only [runAudit, auditEnvNoImage, hcheck, hres]
  rfl

theorem decodeDocuments_all (env : ManifestEnv) (docs : List String)
    (hdocs : ∀ b ∈ docs, (env.decode b).isSome = true ∨ env.isCommentSlice b = true) :
    ∀ (decoded : List Resource) (log : List LogLine),
      decodeDocuments env docs decoded log
        = (decoded ++ docs.filterMap env.decode, none,
           log ++ ((docs.filterMap env.decode).filter
              (fun obj => !env.IsSupportedResourceType obj)).map LogLine.skipping) := by
  induction docs with
  | nil => intro decoded log; simp [decodeDocuments]
  | cons b rest ih =>
    intro decoded log
    have hrest : ∀ b ∈ rest, (env.decode b).isSome = true ∨ env.isCommentSlice b = true :=
      fun b hb => hdocs b (List.mem_cons_of_mem _ hb)
    cases hb : env.decode b with
    | none =>
      have hcomment : env.isCommentSlice b = true := by
        rcases hdocs b (List.mem_cons_self _ _) with h | h
        · rw [hb] at h; simp at h
        · exact h
      simp [decodeDocuments, hb, hcomment, ih hrest]
    | some obj =>
      cases hs : env.IsSupportedResourceType obj <;>
        simp [decodeDocuments, hb, hs, ih hrest]

/-- C19 as stated fails: a manifest of two supported documents and one unsupported
document yields three resources; the unsupported object is in the returned list. -/
theorem getKubeResourcesManifest_counterexample :
    manifestEnv.IsSupportedResourceType sampleDeployment = true ∧
    manifestEnv.IsSupportedResourceType samplePod = true ∧
    manifestEnv.IsSupportedResourceType sampleJob = false ∧
    getKubeResourcesManifest manifestEnv "manifest.yaml"
      = ([sampleDeployment, sampleJob, samplePod], none, [.skipping sampleJob]) ∧
    (getKubeResourcesManifest manifestEnv "manifest.yaml").1.length ≠ 2 ∧
    sampleJob ∈ (getKubeResourcesManifest manifestEnv "manifest.yaml").1 := by
  refine ⟨by decide, by decide, by decide, by decide, by decide, by decide⟩

/-- C19, amended: for a manifest whose documents each either decode to an object or are
comment-only, `getKubeResourcesManifest` returns no error and the returned list holds
every decoded object, of a supported type or not, in document order; for each object of
an unsupported type a warning is logged. -/
theorem getKubeResourcesManifest_all_decoded (env : ManifestEnv) (filename buf : String)
    (hread : env.readFile filename = .ok buf)
    (hdocs : ∀ b ∈ env.split buf,
      (env.decode b).isSome = true ∨ env.isCommentSlice b = true) :
    getKubeResourcesManifest env filename
      = ((env.split buf).filterMap env.decode, none,
         (((env.split buf).filterMap env.decode).filter
            (fun obj => !env.IsSupportedResourceType obj)).map LogLine.skipping) := by
  rw [getKubeResourcesManifest, hread]
  simp only [decodeDocuments_all env _ hdocs, List.nil_append]

/-- Witness of C19, amended. -/
theorem getKubeResourcesManifest_all_decoded_witness :
    getKubeResourcesManifest manifestEnv "manifest.yaml"
      = ((manifestEnv.split "deployment---job---pod").filterMap manifestEnv.decode, none,
         (((manifestEnv.split "deployment---job---pod").filterMap manifestEnv.decode).filter
            (fun obj => !manifestEnv.IsSupportedResourceType obj)).map LogLine.skipping) :=
  getKubeResourcesManifest_all_decoded manifestEnv "manifest.yaml" "deployment---job---pod"
    rfl (by decide)

end Kubeaudit
